import Mathlib

/-!
Shallow embedding of the metrics-table engine (src/frontend/src/metrics-table/metrics-table.ts),
the period algebra (src/unnamed/part_001), the metric helper functions (src/unnamed/part_000)
and the subscribable table (src/unnamed/part_002).

Modelling conventions:
* `Decimal` (decimal.js, arbitrary-precision decimal arithmetic) is modelled by `ℚ`.
* JavaScript `Map` objects are modelled by insertion-ordered association lists
  (`jsGet`/`jsSet`/`jsDelete`/`jsHas`); `Map.set` on an existing key updates the entry in
  place keeping its insertion position, otherwise it appends, exactly like JS.
* JavaScript strings that the engine manipulates (period keys) are modelled as `List Char`.
* `undefined` values (absent metric values, `parseInt` returning `NaN`) are modelled by
  `Option`; a decoded period with a `NaN` field is modelled as `none`.
* Thrown exceptions (`Unknown metric`) are modelled with `Except MetricsError`; operations
  that mutate return the post-state alongside, because in JS the mutations performed before
  a throw persist on the table object.
-/

/-- JS `Map.get`, on an insertion-ordered association list. -/
def jsGet {κ α : Type} [DecidableEq κ] : List (κ × α) → κ → Option α
  | [], _ => none
  | e :: rest, k => if e.1 = k then some e.2 else jsGet rest k

/-- JS `Map.set`: update in place if the key exists (keeping its position), else append. -/
def jsSet {κ α : Type} [DecidableEq κ] : List (κ × α) → κ → α → List (κ × α)
  | [], k, v => [(k, v)]
  | e :: rest, k, v => if e.1 = k then (k, v) :: rest else e :: jsSet rest k v

/-- JS `Map.delete`: remove the entry for the key (a JS map holds at most one). -/
def jsDelete {κ α : Type} [DecidableEq κ] : List (κ × α) → κ → List (κ × α)
  | [], _ => []
  | e :: rest, k => if e.1 = k then rest else e :: jsDelete rest k

/-- JS `Set` built by repeated `add`: keep the first occurrence of each element. -/
def dedupeAux {α : Type} [DecidableEq α] (seen : List α) : List α → List α
  | [] => []
  | x :: xs => if x ∈ seen then dedupeAux seen xs else x :: dedupeAux (x :: seen) xs

/-- Deduplicate keeping first occurrences (JS `new Set(array)` iteration order). -/
def dedupe {α : Type} [DecidableEq α] (l : List α) : List α := dedupeAux [] l

/-! ## Period algebra (src/unnamed/part_001) -/

/-- A period: `{month, year}`, `{quarter, year}` or `{year}`.  The source discriminates the
three record shapes by field presence; we use a sum type.  Fields are JS numbers holding
integers, modelled as `Int`. -/
inductive Period where
  | month (month : Int) (year : Int)
  | quarter (quarter : Int) (year : Int)
  | year (year : Int)
deriving DecidableEq

/-- Accessor for the `year` field, present on all three shapes. -/
def Period.yearOf : Period → Int
  | .month _ y => y
  | .quarter _ y => y
  | .year y => y

/-- Shape test `isMonth` (`"month" in period`). -/
def isMonth : Period → Bool
  | .month _ _ => true
  | _ => false

/-- Shape test `isQuarter` (`"quarter" in period`). -/
def isQuarter : Period → Bool
  | .quarter _ _ => true
  | _ => false

/-- Shape test `isYear` (`!isMonth && !isQuarter`). -/
def isYear (p : Period) : Bool := !isMonth p && !isQuarter p

/-- Decimal digits of `n`, most significant first, via the structural fuel pattern
(`n + 1` units of fuel always suffice).  Models JS `Number.prototype.toString` for
non-negative integers. -/
def natCharsFuel : Nat → Nat → List Char
  | 0, _ => []
  | fuel + 1, n =>
    if n < 10 then [Nat.digitChar n] else natCharsFuel fuel (n / 10) ++ [Nat.digitChar (n % 10)]

/-- Decimal representation of a natural number as characters. -/
def natChars (n : Nat) : List Char := natCharsFuel (n + 1) n

/-- Decimal representation of an integer as characters (JS number-to-string). -/
def intChars (i : Int) : List Char :=
  if i < 0 then '-' :: natChars (-i).toNat else natChars i.toNat

/-- JS `String.prototype.padStart(2, "0")`. -/
def padStart2 (l : List Char) : List Char := List.replicate (2 - l.length) '0' ++ l

/-- Canonical key of a period (function `periodKey`): years are `"YYYY"`, months
`"YYYY-MM"` (zero padded), quarters `"YYYY-QQ"` with `QQ = quarter + 32`. -/
def periodKey : Period → List Char
  | .month m y => intChars y ++ '-' :: padStart2 (intChars m)
  | .quarter q y => intChars y ++ '-' :: intChars (q + 32)
  | .year y => intChars y

/-- Decimal digit test used by the `parseInt` model. -/
def isDigitChar (c : Char) : Bool := decide ('0' ≤ c) && decide (c ≤ '9')

/-- Numeric value of a decimal digit character. -/
def digitVal (c : Char) : Nat := c.toNat - 48

/-- Value of a digit string, most significant digit first. -/
def digitsVal (l : List Char) : Nat := l.foldl (fun acc c => acc * 10 + digitVal c) 0

/-- Longest digit prefix of a character list. -/
def takeDigits (l : List Char) : List Char := l.takeWhile isDigitChar

/-- JS `parseInt(s, 10)`: optional minus sign, then the longest digit prefix; `NaN`
(modelled `none`) when no digit is found. -/
def parseIntJS : List Char → Option Int
  | [] => none
  | c :: rest =>
    if c = '-' then
      match takeDigits rest with
      | [] => none
      | ds => some (-(digitsVal ds : Int))
    else
      match takeDigits (c :: rest) with
      | [] => none
      | ds => some ((digitsVal ds : Int))

/-- JS `String.prototype.split("-")`. -/
def splitOnDash : List Char → List (List Char)
  | [] => [[]]
  | c :: rest =>
    if c = '-' then [] :: splitOnDash rest
    else
      match splitOnDash rest with
      | [] => [[c]]
      | h :: t => (c :: h) :: t

/-- Shared tail of `periodFromKey`: given the parsed `year` and `month` components
(`undefined`/`NaN` as `none`), rebuild the period; a period with a `NaN` field is `none`. -/
def decodeParts (y? m? : Option Int) : Option Period :=
  match m? with
  | some m =>
    if m ≤ 12 then
      match y? with
      | some y => some (.month m y)
      | none => none
    else
      match y? with
      | some y => some (.quarter (m - 32) y)
      | none => none
  | none => none

/-- Inverse of `periodKey` (function `periodFromKey`): a 4-character key is a year;
otherwise split on `-`, parse both components, and a second component `≤ 12` is a
month while a larger one is `quarter + 32`. -/
def periodFromKey (key : List Char) : Option Period :=
  if key.length = 4 then (parseIntJS key).map Period.year
  else
    match (splitOnDash key).map parseIntJS with
    | [] => none
    | [y?] => decodeParts y? none
    | y? :: m? :: _ => decodeParts y? m?

/-- Comparator `periodSorter`, returning the JS comparator integer.  Mirrors the source
exactly, including the fall-through to `a.year - b.year` when `a` is a year-only period
in the same year as `b`. -/
def periodSorter (a b : Period) : Int :=
  if a.yearOf = b.yearOf then
    match a with
    | .month m _ =>
      match b with
      | .month m2 _ => m - m2
      | .quarter q2 _ => m - q2 * 3
      | .year _ => -1
    | .quarter q _ =>
      match b with
      | .month m2 _ => q * 3 - m2
      | .quarter q2 _ => q - q2
      | .year _ => 1
    | .year _ => a.yearOf - b.yearOf
  else a.yearOf - b.yearOf

/-- The three months of a quarter (function `getMonthsForQuarter`), as periods. -/
def getMonthsForQuarter (quarter year : Int) : List Period :=
  (List.range 3).map (fun i => .month (3 * quarter - 2 + (i : Int)) year)

/-- The twelve months of a year (function `getMonthsForYear`), as periods. -/
def getMonthsForYear (year : Int) : List Period :=
  (List.range 12).map (fun i => .month ((i : Int) + 1) year)

/-- Stable insertion of a period into a sorted list, placing it before the first element
it does not sort after. -/
def insertPeriod (p : Period) : List Period → List Period
  | [] => [p]
  | q :: qs => if periodSorter p q ≤ 0 then p :: q :: qs else q :: insertPeriod p qs

/-- Deterministic stable sort by `periodSorter`, modelling JS `Array.prototype.sort`. -/
def sortPeriods : List Period → List Period
  | [] => []
  | p :: ps => insertPeriod p (sortPeriods ps)

/-! ## Metric helpers (src/unnamed/part_000) -/

/-- The `Decimal` value type of the engine (decimal.js), modelled as `ℚ`. -/
abbrev Decimal := ℚ

/-- Model of `Decimal.sum(...values)`; the source only ever applies it to a non-empty
argument list (the 3 or 12 months of an aggregate period). -/
def decimalSum : List Decimal → Decimal
  | [] => 0
  | v :: rest => v + decimalSum rest

/-- Function `average` from the metrics module: zero on an empty list, otherwise the sum
divided by the length. -/
def average (values : List Decimal) : Decimal :=
  if values.length = 0 then 0 else decimalSum values / (values.length : Decimal)

/-! ## Metric table engine (src/frontend/src/metrics-table/metrics-table.ts) -/

/-- The two-level `metric name → period key → Decimal` store (`MetricsTable.data`). -/
abbrev TableData := List (String × List (List Char × Decimal))

/-- An `aggregate` rule of a metric: one of four built-ins or a custom function.  A custom
function receives the table (modelled by its observable `data`, the configuration being
statically known to the closure), the included periods, the target period and the current
value. -/
inductive AggregateRule where
  | first
  | last
  | average
  | sum
  | custom (f : TableData → List Period → Period → Option Decimal → Option Decimal)

/-- A metric descriptor (`MetricConfiguration`): a name, an optional `compute` rule (the
table modelled by its `data`, the target period, the current value) and an optional
`aggregate` rule. -/
structure MetricConfiguration where
  name : String
  compute : Option (TableData → Period → Option Decimal → Option Decimal)
  aggregate : Option AggregateRule

/-- The two aggregation toggles (`AggregateConfiguration`); the source reads them with
`?? false`, so the absent case is folded into `false`. -/
structure AggregateConfiguration where
  quarter : Bool
  year : Bool

/-- A table configuration (`MetricsTableConfiguration`). -/
structure MetricsTableConfiguration where
  metrics : List MetricConfiguration
  aggregates : AggregateConfiguration

/-- The mutable table: its static configuration and its two-level data store. -/
structure MetricsTable where
  configuration : MetricsTableConfiguration
  data : TableData

/-- The single error kind of the core: `new Error("Unknown metric: " + metric)`. -/
inductive MetricsError where
  | unknownMetric (name : String)
deriving DecidableEq

/-- A `{metric, period, value}` update triple (`MetricValue`). -/
structure MetricValue where
  metric : String
  period : Period
  value : Option Decimal

/-- An entry of the changed-values list (`UpdatedMetricValue`). -/
structure UpdatedMetricValue where
  metric : String
  period : Period
  value : Option Decimal
  oldValue : Option Decimal
deriving DecidableEq

/-- Method `getValue`: throws `Unknown metric` when the metric has no row, otherwise the
stored value (or absence) at the period key. -/
def getValue (t : MetricsTable) (metric : String) (period : Period) :
    Except MetricsError (Option Decimal) :=
  match jsGet t.data metric with
  | none => .error (.unknownMetric metric)
  | some row => .ok (jsGet row (periodKey period))

/-- Non-throwing read of a cell, used to model `table.getValue` calls made by compute and
aggregate closures on metric names that are known to exist. -/
def dataGet (data : TableData) (metric : String) (period : Period) : Option Decimal :=
  match jsGet data metric with
  | none => none
  | some row => jsGet row (periodKey period)

/-- Method `getMetrics`: the data map's keys in insertion order. -/
def getMetrics (t : MetricsTable) : List String := t.data.map (fun e => e.1)

/-- Method `isAggregate`: quarters with quarter-aggregation enabled, years with
year-aggregation enabled. -/
def isAggregate (t : MetricsTable) (period : Period) : Bool :=
  if isQuarter period then t.configuration.aggregates.quarter
  else if isYear period then t.configuration.aggregates.year
  else false

/-- Method `getPeriods`: all period keys holding a value for any metric, deduplicated,
decoded and sorted.  Under the well-formedness maintained by the engine every stored key
decodes, so the `filterMap` drops nothing. -/
def getPeriods (t : MetricsTable) : List Period :=
  sortPeriods ((dedupe ((t.data.map (fun r => r.2.map (fun e => e.1))).flatten)).filterMap
    periodFromKey)

/-- Private method `setValue` (the set primitive): throws on an unknown metric, then
writes (or deletes, for an absent new value) and records an entry only when
`!oldValue || !newValue?.eq(oldValue)` — note that an absent old value always passes this
test, even when the new value is also absent. -/
def setValue (t : MetricsTable) (metric : String) (period : Period) (newValue : Option Decimal)
    (updatedValues : List UpdatedMetricValue) :
    Except MetricsError (MetricsTable × List UpdatedMetricValue) :=
  match jsGet t.data metric with
  | none => .error (.unknownMetric metric)
  | some row =>
    let oldValue := jsGet row (periodKey period)
    if oldValue = none ∨ newValue ≠ oldValue then
      let row2 :=
        match newValue with
        | some v => jsSet row (periodKey period) v
        | none => jsDelete row (periodKey period)
      .ok (⟨t.configuration, jsSet t.data metric row2⟩,
        updatedValues ++ [⟨metric, period, newValue, oldValue⟩])
    else
      .ok (t, updatedValues)

/-- Fold a fallible step over a list, stopping at the first error (the monadic `for` loop
over a JS array with a possibly-throwing body). -/
def exceptFoldl {α β ε : Type} (f : α → β → Except ε α) : α → List β → Except ε α
  | s, [] => .ok s
  | s, b :: l =>
    match f s b with
    | .error e => .error e
    | .ok s2 => exceptFoldl f s2 l

/-- Phase A body for one period and one metric: run the metric's `compute` rule (if any)
on the current value and write the result through `setValue`. -/
def computeMetricStep (period : Period) (st : MetricsTable × List UpdatedMetricValue)
    (mc : MetricConfiguration) : Except MetricsError (MetricsTable × List UpdatedMetricValue) :=
  match mc.compute with
  | none => .ok st
  | some f =>
    match getValue st.1 mc.name period with
    | .error e => .error e
    | .ok oldValue => setValue st.1 mc.name period (f st.1.data period oldValue) st.2

/-- The value computed by a metric's aggregate rule (the `switch` inside
`computeAggregate`).  `includedPeriods[0]` / `.at(-1)` are modelled with `head?` /
`getLast?`; the source only ever passes the non-empty month lists of a quarter or year.
Inner reads use the non-throwing accessor: the metric name was already validated by the
`oldValue` read. -/
def aggregateValue (t : MetricsTable) (name : String) (rule : AggregateRule)
    (includedPeriods : List Period) (period : Period) (oldValue : Option Decimal) :
    Option Decimal :=
  match rule with
  | .first =>
    match includedPeriods.head? with
    | some p => dataGet t.data name p
    | none => none
  | .last =>
    match includedPeriods.getLast? with
    | some p => dataGet t.data name p
    | none => none
  | .average =>
    some (average (includedPeriods.map (fun p => (dataGet t.data name p).getD 0)))
  | .sum =>
    some (decimalSum (includedPeriods.map (fun p => (dataGet t.data name p).getD 0)))
  | .custom f => f t.data includedPeriods period oldValue

/-- Private method `computeAggregate`, body for one metric: skip metrics without an
aggregate rule, otherwise read the current value, evaluate the rule and write through
`setValue`. -/
def computeAggregateStep (period : Period) (includedPeriods : List Period)
    (st : MetricsTable × List UpdatedMetricValue) (mc : MetricConfiguration) :
    Except MetricsError (MetricsTable × List UpdatedMetricValue) :=
  match mc.aggregate with
  | none => .ok st
  | some rule =>
    match getValue st.1 mc.name period with
    | .error e => .error e
    | .ok oldValue =>
      setValue st.1 mc.name period
        (aggregateValue st.1 mc.name rule includedPeriods period oldValue) st.2

/-- Private method `computeAggregate`: the loop over all configured metrics. -/
def computeAggregate (st : MetricsTable × List UpdatedMetricValue) (period : Period)
    (includedPeriods : List Period) :
    Except MetricsError (MetricsTable × List UpdatedMetricValue) :=
  exceptFoldl (computeAggregateStep period includedPeriods) st st.1.configuration.metrics

/-- Private method `recompute`: Phase A runs every `compute` rule over every currently
known non-aggregate period (the period list is snapshotted before the loop); the touched
years (collected during the same loop, hence the deduplicated years of the base periods in
order) then drive the quarter and year aggregation phases when enabled. -/
def recompute (t : MetricsTable) (updatedValues : List UpdatedMetricValue) :
    Except MetricsError (MetricsTable × List UpdatedMetricValue) :=
  let basePeriods := (getPeriods t).filter (fun p => !isAggregate t p)
  let years := dedupe (basePeriods.map Period.yearOf)
  match exceptFoldl (fun st period => exceptFoldl (computeMetricStep period) st
      st.1.configuration.metrics) (t, updatedValues) basePeriods with
  | .error e => .error e
  | .ok st1 =>
    match (if t.configuration.aggregates.quarter then
        exceptFoldl (fun st y => exceptFoldl (fun st2 q =>
          computeAggregate st2 (.quarter q y) (getMonthsForQuarter q y)) st
            ([1, 2, 3, 4] : List Int)) st1 years
      else .ok st1) with
    | .error e => .error e
    | .ok st2 =>
      if t.configuration.aggregates.year then
        exceptFoldl (fun st y => computeAggregate st (.year y) (getMonthsForYear y)) st2 years
      else .ok st2

/-- The write loop of `update`: apply `setValue` to each triple in order.  On a throw the
table keeps the mutations already performed (the post-state is returned alongside the
error). -/
def updateWrites (t : MetricsTable) (values : List MetricValue)
    (acc : List UpdatedMetricValue) :
    MetricsTable × Except MetricsError (List UpdatedMetricValue) :=
  match values with
  | [] => (t, .ok acc)
  | v :: rest =>
    match setValue t v.metric v.period v.value acc with
    | .error e => (t, .error e)
    | .ok (t2, acc2) => updateWrites t2 rest acc2

/-- Method `update`: write every triple, then run `recompute` once, returning the full
accumulated changed-values list.  (The error branch of `recompute` is unreachable for
well-formed tables, whose data map has a row for every configured metric.) -/
def update (t : MetricsTable) (values : List MetricValue) :
    MetricsTable × Except MetricsError (List UpdatedMetricValue) :=
  match updateWrites t values [] with
  | (t2, .error e) => (t2, .error e)
  | (t2, .ok acc) =>
    match recompute t2 acc with
    | .error e => (t2, .error e)
    | .ok (t3, acc2) => (t3, .ok acc2)

/-- The constructor: one empty row per configured metric (a JS `Map` built from pairs,
i.e. repeated `set`), then the initial data is pushed through the normal `update` path. -/
def mkTable (configuration : MetricsTableConfiguration) (initialData : List MetricValue) :
    MetricsTable :=
  (update ⟨configuration, configuration.metrics.foldl (fun d mc => jsSet d mc.name []) []⟩
    initialData).1

/-! ## Subscribable table (src/unnamed/part_002) -/

/-- The observer registry: metric name → period key → the `Set` of callbacks, callbacks
being modelled by opaque numeric identities (JS function object identity). -/
abbrev SubscriptionMap := List (String × List (List Char × List Nat))

/-- A `SubscribableMetricsTable`: the underlying engine plus the lazily allocated
registry. -/
structure SubscribableMetricsTable where
  toTable : MetricsTable
  subscriptions : Option SubscriptionMap

/-- The registry allocated on first subscription: one empty inner map per configured
metric. -/
def initialSubscriptions (configuration : MetricsTableConfiguration) : SubscriptionMap :=
  configuration.metrics.foldl (fun m mc => jsSet m mc.name []) []

/-- Method `subscribe`.  Returns the updated table together with the data captured by the
returned unsubscribe closure: the Boolean records whether `existing` was `undefined` at
subscription time (i.e. this was the first subscription for the (metric, key) pair), in
which case the closure captured `undefined` and can remove nothing. -/
def subscribe (s : SubscribableMetricsTable) (metric : String) (period : Period)
    (callback : Nat) : Except MetricsError (SubscribableMetricsTable × Bool) :=
  let key := periodKey period
  let subs :=
    match s.subscriptions with
    | some m => m
    | none => initialSubscriptions s.toTable.configuration
  match jsGet subs metric with
  | none => .error (.unknownMetric metric)
  | some row =>
    match jsGet row key with
    | none => .ok (⟨s.toTable, some (jsSet subs metric (jsSet row key [callback]))⟩, true)
    | some existing =>
      let grown := if callback ∈ existing then existing else existing ++ [callback]
      .ok (⟨s.toTable, some (jsSet subs metric (jsSet row key grown))⟩, false)

/-- The unsubscribe closure `() => existing?.delete(callback)`: a no-op when the closure
captured `undefined` (`wasFirst`), otherwise it deletes the callback from the set object
sitting at the (metric, key) slot — the same object the closure captured, since the engine
never replaces a set once created. -/
def unsubscribe (s : SubscribableMetricsTable) (metric : String) (period : Period)
    (callback : Nat) (wasFirst : Bool) : SubscribableMetricsTable :=
  if wasFirst then s
  else
    match s.subscriptions with
    | none => s
    | some subs =>
      match jsGet subs metric with
      | none => s
      | some row =>
        match jsGet row (periodKey period) with
        | none => s
        | some set =>
          ⟨s.toTable, some (jsSet subs metric
            (jsSet row (periodKey period) (set.filter (fun c => c ≠ callback))))⟩

/-- The callbacks looked up for one changed-values entry
(`subscriptions?.get(metric)?.get(key) || []`). -/
def callbacksFor (subscriptions : Option SubscriptionMap) (metric : String)
    (key : List Char) : List Nat :=
  match subscriptions with
  | none => []
  | some subs =>
    match jsGet subs metric with
    | none => []
    | some row => (jsGet row key).getD []

/-- Overridden `update`: delegate to the engine, then for every returned entry invoke
every callback registered for that exact (metric, period key) pair.  The third component
is the ordered list of callback invocations performed synchronously before returning. -/
def subUpdate (s : SubscribableMetricsTable) (values : List MetricValue) :
    SubscribableMetricsTable × Except MetricsError (List UpdatedMetricValue) × List Nat :=
  match update s.toTable values with
  | (t2, .error e) => (⟨t2, s.subscriptions⟩, .error e, [])
  | (t2, .ok updated) =>
    (⟨t2, s.subscriptions⟩, .ok updated,
      updated.flatMap (fun e => callbacksFor s.subscriptions e.metric (periodKey e.period)))

/-! ## The concrete aggregation scenario of the spec and the test suite -/

/-- The scenario configuration: `beginningMRR` (aggregate `sum`) declared before
`endingMRR`, whose `compute` rule copies `beginningMRR`'s value for the same period
(falling back to the current value when it is absent, as in the test suite), with quarter
and year aggregation enabled. -/
def mrrConfiguration : MetricsTableConfiguration :=
  ⟨[⟨"beginningMRR", none, some .sum⟩,
    ⟨"endingMRR",
      some (fun data period currentValue =>
        match dataGet data "beginningMRR" period with
        | none => currentValue
        | some v => some v),
      none⟩],
   ⟨true, true⟩⟩

/-- The scenario table, freshly constructed with no initial data. -/
def mrrTable0 : MetricsTable := mkTable mrrConfiguration []

/-- First scenario step: update `beginningMRR` for Jan-2023 to 10. -/
def mrrStep1 : MetricsTable × Except MetricsError (List UpdatedMetricValue) :=
  update mrrTable0 [⟨"beginningMRR", .month 1 2023, some 10⟩]

/-- Second scenario step: update `beginningMRR` for Dec-2023 to 10 on the resulting
table. -/
def mrrStep2 : MetricsTable × Except MetricsError (List UpdatedMetricValue) :=
  update mrrStep1.1 [⟨"beginningMRR", .month 12 2023, some 10⟩]

/-! ## Claim theorems -/

/-- Claim C2 (code bug): the period comparator does not conform to the documented
ordering.  Within the same year it does compare two months by month number, two quarters
by quarter number, and a month against a quarter as month versus `quarter * 3`; but a
quarter compared against a year-only period returns `1` (placing the quarter *after* the
year, where both the doc comment `Months < Quarter for the months < Year` and the spec
require the year last), and a year-only period as the *first* argument falls through to
`a.year - b.year = 0`, so `compare(year, Jan) = 0` while `compare(Jan, year) = -1` —
the comparator is not antisymmetric on same-year pairs. -/
theorem periodSorter_year_comparisons :
    periodSorter (.month 3 2023) (.month 7 2023) = -4 ∧
    periodSorter (.quarter 2 2023) (.quarter 1 2023) = 1 ∧
    periodSorter (.month 3 2023) (.quarter 1 2023) = 0 ∧
    periodSorter (.quarter 1 2023) (.year 2023) = 1 ∧
    periodSorter (.year 2023) (.quarter 1 2023) = 0 ∧
    periodSorter (.month 1 2023) (.year 2023) = -1 ∧
    periodSorter (.year 2023) (.month 1 2023) = 0 :=
  ⟨rfl, rfl, rfl, rfl, rfl, rfl, rfl⟩

/-- Claim C3, counterexample: the key round-trip fails for the valid year-only period
with year 999, whose key `"999"` is not 4 characters long, so decoding takes the
split path, finds no second component, and produces `{quarter: NaN, year: 999}` (a
`NaN`-carrying non-period, modelled `none`) instead of the original period. -/
theorem periodFromKey_periodKey_year999 :
    periodFromKey (periodKey (.year 999)) ≠ some (.year 999) := by
  have h : periodFromKey (periodKey (.year 999)) = none := by with_unfolding_all rfl
  rw [h]
  exact fun contra => Option.noConfusion contra

/-- Claim C4 (confirmed): in the concrete scenario, updating `beginningMRR`/Jan-2023 to
10 on the empty table returns exactly, in order, `beginningMRR`/Jan-2023 (10, was
absent), `endingMRR`/Jan-2023 (10, was absent), `beginningMRR`/Q1-2023 (10, was absent),
`beginningMRR`/Q2–Q4-2023 (each 0, was absent) and `beginningMRR`/2023 (10, was absent);
the subsequent update of `beginningMRR`/Dec-2023 to 10 returns exactly
`beginningMRR`/Dec-2023 (10, was absent), `endingMRR`/Dec-2023 (10, was absent),
`beginningMRR`/Q4-2023 (0 → 10) and `beginningMRR`/2023 (10 → 20), with no entries for
Q1–Q3. -/
theorem mrr_scenario_updates :
    mrrStep1.2.toOption = some [
      ⟨"beginningMRR", .month 1 2023, some 10, none⟩,
      ⟨"endingMRR", .month 1 2023, some 10, none⟩,
      ⟨"beginningMRR", .quarter 1 2023, some 10, none⟩,
      ⟨"beginningMRR", .quarter 2 2023, some 0, none⟩,
      ⟨"beginningMRR", .quarter 3 2023, some 0, none⟩,
      ⟨"beginningMRR", .quarter 4 2023, some 0, none⟩,
      ⟨"beginningMRR", .year 2023, some 10, none⟩] ∧
    mrrStep2.2.toOption = some [
      ⟨"beginningMRR", .month 12 2023, some 10, none⟩,
      ⟨"endingMRR", .month 12 2023, some 10, none⟩,
      ⟨"beginningMRR", .quarter 4 2023, some 10, some 0⟩,
      ⟨"beginningMRR", .year 2023, some 20, some 10⟩] := by
  constructor
  · with_unfolding_all rfl
  · with_unfolding_all rfl

/-! ## Small concrete fixtures used by counterexamples and witnesses -/

/-- A minimal configuration: one metric `m`, no compute rule, no aggregate rule, no
aggregation toggles. -/
def plainConfiguration : MetricsTableConfiguration := ⟨[⟨"m", none, none⟩], ⟨false, false⟩⟩

/-- The freshly constructed minimal table. -/
def plainTable : MetricsTable := mkTable plainConfiguration []

/-- The minimal table holding 5 for `m`/Jan-2023 (the state reached by updating the fresh
table with that single triple). -/
def plainTable5 : MetricsTable :=
  ⟨plainConfiguration, [("m", [(periodKey (.month 1 2023), 5)])]⟩

/-- A configuration whose single metric `m` carries a compute rule adding 1 to the
current value (so recompute is never at a fixpoint). -/
def incConfiguration : MetricsTableConfiguration :=
  ⟨[⟨"m", some (fun _ _ currentValue => some (currentValue.getD 0 + 1)), none⟩],
   ⟨false, false⟩⟩

/-- A table for `incConfiguration` holding 5 for `m`/Jan-2023. -/
def incTable : MetricsTable :=
  ⟨incConfiguration, [("m", [(periodKey (.month 1 2023), 5)])]⟩

/-- The subscribable table over `incTable` with callback 3 registered for `m`/Jan-2023. -/
def incSubTable : SubscribableMetricsTable :=
  ⟨incTable, some [("m", [(periodKey (.month 1 2023), [3])])]⟩

/-- The fresh minimal table wrapped as a subscribable table (no subscriptions yet). -/
def subTable0 : SubscribableMetricsTable := ⟨plainTable, none⟩

/-- The subscribable minimal table with callback 7 registered for `m`/Jan-2023 (the state
produced by the first `subscribe` call on `subTable0`). -/
def subTable1 : SubscribableMetricsTable :=
  ⟨plainTable, some [("m", [(periodKey (.month 1 2023), [7])])]⟩

/-- Claim C5 (code bug): the unsubscribe function returned by the *first* subscription on
a (metric, period key) pair removes nothing.  The `subscribe` body reads `existing`
before allocating the set, so for the first subscriber the returned closure captured
`undefined` and `existing?.delete(callback)` is a no-op: after subscribing callback 7 as
first subscriber and invoking its unsubscribe function, the registry is unchanged and the
callback still fires for a change to `m`/Jan-2023. -/
theorem subscribe_first_unsubscribe_noop :
    subscribe subTable0 "m" (.month 1 2023) 7 = .ok (subTable1, true) ∧
    unsubscribe subTable1 "m" (.month 1 2023) 7 true = subTable1 ∧
    (subUpdate subTable1 [⟨"m", .month 1 2023, some 1⟩]).2.2 = [7] := by
  refine ⟨?_, rfl, ?_⟩
  · with_unfolding_all rfl
  · with_unfolding_all rfl

/-- Claim C6, counterexample: a single `update` call that writes `m`/Jan-2023 twice (1
then 2) changes that cell (it ends at 2, having started absent — third conjunct), yet the
callback registered for `m`/Jan-2023 fires twice, not exactly once: the wrapper invokes
the callbacks once per changed-values entry, and the cell produced two entries. -/
theorem subscriber_double_fire :
    (subUpdate subTable1 [⟨"m", .month 1 2023, some 1⟩, ⟨"m", .month 1 2023, some 2⟩]).2.2 =
      [7, 7] ∧
    dataGet (subUpdate subTable1
      [⟨"m", .month 1 2023, some 1⟩, ⟨"m", .month 1 2023, some 2⟩]).1.toTable.data
      "m" (.month 1 2023) = some 2 ∧
    dataGet subTable1.toTable.data "m" (.month 1 2023) = none := by
  refine ⟨?_, ?_, ?_⟩
  · with_unfolding_all rfl
  · with_unfolding_all rfl
  · with_unfolding_all rfl

/-- Claim C1, counterexample: two failures of the claim as stated.  First, writing an
absent value to an already-absent cell returns an entry whose old and new value are both
absent — no actual change occurred (`!oldValue` passes the change test even when the new
value is also absent).  Second, on a table whose metric has a compute rule that is not at
a fixpoint (here: add 1), updating `m`/Jan-2023 with the value 5 it already stores (second
conjunct) returns a non-empty changed-values list and changes the cell to 6, because
`update` always runs the full recompute pass. -/
theorem update_spurious_and_noop_entries :
    (update plainTable [⟨"m", .month 1 2023, none⟩]).2.toOption =
      some [⟨"m", .month 1 2023, none, none⟩] ∧
    dataGet incTable.data "m" (.month 1 2023) = some 5 ∧
    (update incTable [⟨"m", .month 1 2023, some 5⟩]).2.toOption =
      some [⟨"m", .month 1 2023, some 6, some 5⟩] := by
  refine ⟨?_, ?_, ?_⟩
  · with_unfolding_all rfl
  · with_unfolding_all rfl
  · with_unfolding_all rfl

/-- Claim C8, counterexample: `update` is not atomic on failure.  With one declared
metric `m`, updating with a known triple followed by an unknown one raises
`UnknownMetric "nope"`, yet the first write persists: `m`/Jan-2023 reads 1 after the
failed call, while it was absent before. -/
theorem update_partial_write_on_error :
    (update plainTable [⟨"m", .month 1 2023, some 1⟩, ⟨"nope", .month 1 2023, some 2⟩]).2 =
      .error (.unknownMetric "nope") ∧
    dataGet (update plainTable
      [⟨"m", .month 1 2023, some 1⟩, ⟨"nope", .month 1 2023, some 2⟩]).1.data
      "m" (.month 1 2023) = some 1 ∧
    dataGet plainTable.data "m" (.month 1 2023) = none := by
  refine ⟨?_, ?_, ?_⟩
  · with_unfolding_all rfl
  · with_unfolding_all rfl
  · with_unfolding_all rfl

/-! ## Digit-string lemmas for the key codec -/

theorem natCharsFuel_congr : ∀ (f g n : Nat), n < f → n < g → natCharsFuel f n = natCharsFuel g n := by
  intro f
  induction f with
  | zero => intro g n h; omega
  | succ f ih =>
    intro g n hf hg
    cases g with
    | zero => omega
    | succ g =>
      simp only [natCharsFuel]
      by_cases h10 : n < 10
      · simp [h10]
      · have hd : n / 10 < n := Nat.div_lt_self (by omega) (by omega)
        simp only [h10, if_false]
        rw [ih g (n / 10) (by omega) (by omega)]

theorem natChars_lt10 {n : Nat} (h : n < 10) : natChars n = [Nat.digitChar n] := by
  simp [natChars, natCharsFuel, h]

theorem natChars_ge10 {n : Nat} (h : 10 ≤ n) :
    natChars n = natChars (n / 10) ++ [Nat.digitChar (n % 10)] := by
  have h1 : natChars n = natCharsFuel n (n / 10) ++ [Nat.digitChar (n % 10)] := by
    simp [natChars, natCharsFuel, Nat.not_lt.2 h]
  rw [h1, natCharsFuel_congr n (n / 10 + 1) (n / 10)
    (Nat.div_lt_self (by omega) (by omega)) (by omega)]
  rfl

theorem digitChar_spec {d : Nat} (h : d < 10) :
    isDigitChar (Nat.digitChar d) = true ∧ Nat.digitChar d ≠ '-' ∧
      digitVal (Nat.digitChar d) = d := by
  interval_cases d <;> exact ⟨by decide, by decide, by decide⟩

theorem natChars_digits {n : Nat} : ∀ c ∈ natChars n, isDigitChar c = true ∧ c ≠ '-' := by
  induction n using Nat.strong_induction_on with
  | _ n ih =>
    by_cases h : n < 10
    · rw [natChars_lt10 h]
      intro c hc
      rw [List.mem_singleton] at hc
      subst hc
      exact ⟨(digitChar_spec h).1, (digitChar_spec h).2.1⟩
    · rw [natChars_ge10 (by omega)]
      intro c hc
      rw [List.mem_append] at hc
      rcases hc with hc | hc
      · exact ih (n / 10) (Nat.div_lt_self (by omega) (by omega)) c hc
      · rw [List.mem_singleton] at hc
        subst hc
        have h10 : n % 10 < 10 := Nat.mod_lt _ (by omega)
        exact ⟨(digitChar_spec h10).1, (digitChar_spec h10).2.1⟩

theorem natChars_ne_nil {n : Nat} : natChars n ≠ [] := by
  by_cases h : n < 10
  · rw [natChars_lt10 h]; simp
  · rw [natChars_ge10 (by omega)]; simp

theorem digitsVal_append_singleton (l : List Char) (c : Char) :
    digitsVal (l ++ [c]) = digitsVal l * 10 + digitVal c := by
  simp [digitsVal, List.foldl_append]

theorem digitsVal_natChars {n : Nat} : digitsVal (natChars n) = n := by
  induction n using Nat.strong_induction_on with
  | _ n ih =>
    by_cases h : n < 10
    · rw [natChars_lt10 h]
      simp [digitsVal, (digitChar_spec h).2.2]
    · rw [natChars_ge10 (by omega), digitsVal_append_singleton,
        ih (n / 10) (Nat.div_lt_self (by omega) (by omega)),
        (digitChar_spec (Nat.mod_lt _ (by omega) : n % 10 < 10)).2.2]
      omega

theorem natChars_length1 {n : Nat} (h : n < 10) : (natChars n).length = 1 := by
  rw [natChars_lt10 h]; rfl

theorem natChars_length2 {n : Nat} (h1 : 10 ≤ n) (h2 : n < 100) : (natChars n).length = 2 := by
  rw [natChars_ge10 h1]
  simp [natChars_length1 (by omega : n / 10 < 10)]

theorem natChars_length3 {n : Nat} (h1 : 100 ≤ n) (h2 : n < 1000) : (natChars n).length = 3 := by
  rw [natChars_ge10 (by omega)]
  simp [natChars_length2 (by omega : 10 ≤ n / 10) (by omega : n / 10 < 100)]

theorem natChars_length4 {n : Nat} (h1 : 1000 ≤ n) (h2 : n < 10000) : (natChars n).length = 4 := by
  rw [natChars_ge10 (by omega)]
  simp [natChars_length3 (by omega : 100 ≤ n / 10) (by omega : n / 10 < 1000)]

theorem takeDigits_all {l : List Char} (h : ∀ c ∈ l, isDigitChar c = true) :
    takeDigits l = l := by
  simp [takeDigits, List.takeWhile_eq_self_iff.2 h]

theorem parseIntJS_digits {l : List Char} (hne : l ≠ [])
    (h : ∀ c ∈ l, isDigitChar c = true ∧ c ≠ '-') :
    parseIntJS l = some ((digitsVal l : Int)) := by
  cases l with
  | nil => exact absurd rfl hne
  | cons c cs =>
    have hc := h c (by simp)
    have htake : takeDigits (c :: cs) = c :: cs := takeDigits_all (fun x hx => (h x hx).1)
    simp [parseIntJS, hc.2, htake]

theorem parseIntJS_natChars {n : Nat} : parseIntJS (natChars n) = some ((n : Int)) := by
  rw [parseIntJS_digits natChars_ne_nil natChars_digits, digitsVal_natChars]

theorem splitOnDash_ne_nil {l : List Char} : splitOnDash l ≠ [] := by
  cases l with
  | nil => simp [splitOnDash]
  | cons c rest =>
    simp only [splitOnDash]
    by_cases h : c = '-'
    · simp [h]
    · simp only [h, if_false]
      cases splitOnDash rest <;> simp

theorem splitOnDash_no_dash {l : List Char} (h : '-' ∉ l) : splitOnDash l = [l] := by
  induction l with
  | nil => rfl
  | cons c rest ih =>
    have hc : ¬(c = '-') := fun hc => h (by simp [hc])
    have hr : splitOnDash rest = [rest] := ih (fun hm => h (by simp [hm]))
    simp [splitOnDash, hc, hr]

theorem splitOnDash_append {a b : List Char} (h : '-' ∉ a) :
    splitOnDash (a ++ '-' :: b) = a :: splitOnDash b := by
  induction a with
  | nil => simp [splitOnDash]
  | cons c a2 ih =>
    have hc : ¬(c = '-') := fun hc => h (by simp [hc])
    have ha2 : splitOnDash (a2 ++ '-' :: b) = a2 :: splitOnDash b :=
      ih (fun hm => h (by simp [hm]))
    simp [splitOnDash, hc, ha2]

theorem digitsVal_cons_zero (l : List Char) : digitsVal ('0' :: l) = digitsVal l := by
  simp [digitsVal, digitVal]

theorem intChars_nonneg {i : Int} (h : 0 ≤ i) : intChars i = natChars i.toNat := by
  simp [intChars, Int.not_lt.2 h]

theorem padStart2_length {l : List Char} (h : l.length ≤ 2) : (padStart2 l).length = 2 := by
  simp [padStart2]
  omega

theorem mem_padStart2 {c : Char} {l : List Char} (h : c ∈ padStart2 l) : c = '0' ∨ c ∈ l := by
  simp only [padStart2, List.mem_append, List.mem_replicate] at h
  rcases h with h | h
  · exact Or.inl h.2
  · exact Or.inr h

theorem digitsVal_padStart2 (l : List Char) : digitsVal (padStart2 l) = digitsVal l := by
  simp only [padStart2]
  generalize 2 - l.length = k
  induction k with
  | zero => rfl
  | succ k ih => rw [List.replicate_succ, List.cons_append, digitsVal_cons_zero, ih]

/-- Validity of a period as the spec states it: month in 1–12, quarter in 1–4. -/
def ValidPeriod : Period → Prop
  | .month m _ => 1 ≤ m ∧ m ≤ 12
  | .quarter q _ => 1 ≤ q ∧ q ≤ 4
  | .year _ => True

theorem digit_block_spec {n : Nat} (h1 : 1 ≤ n) (h2 : n ≤ 12) :
    (padStart2 (natChars n)).length = 2 ∧
      digitsVal (padStart2 (natChars n)) = n ∧
      (∀ c ∈ padStart2 (natChars n), isDigitChar c = true ∧ c ≠ '-') := by
  have hlen : (natChars n).length ≤ 2 := by
    by_cases h : n < 10
    · rw [natChars_length1 h]; omega
    · rw [natChars_length2 (by omega) (by omega)]
  refine ⟨padStart2_length hlen, ?_, ?_⟩
  · rw [digitsVal_padStart2, digitsVal_natChars]
  · intro c hc
    rcases mem_padStart2 hc with h | h
    · subst h; exact ⟨by decide, by decide⟩
    · exact natChars_digits c h

theorem parseIntJS_padded {n : Nat} (h1 : 1 ≤ n) (h2 : n ≤ 12) :
    parseIntJS (padStart2 (natChars n)) = some ((n : Int)) := by
  obtain ⟨hlen, hval, hdig⟩ := digit_block_spec h1 h2
  rw [parseIntJS_digits (by intro h; rw [h] at hlen; simp at hlen) hdig, hval]

/-- Claim C3, amended: the key round-trip holds for every valid period whose year has a
four-character decimal rendering (1000–9999). -/
theorem periodFromKey_periodKey (p : Period) (hv : ValidPeriod p)
    (hy1 : 1000 ≤ p.yearOf) (hy2 : p.yearOf ≤ 9999) :
    periodFromKey (periodKey p) = some p := by
  cases p with
  | year y =>
    simp only [Period.yearOf] at hy1 hy2
    have h0 : (0 : Int) ≤ y := by omega
    have hkey : periodKey (.year y) = natChars y.toNat := by
      simp [periodKey, intChars_nonneg h0]
    have hlen : (natChars y.toNat).length = 4 := natChars_length4 (by omega) (by omega)
    rw [hkey]
    simp [periodFromKey, hlen, parseIntJS_natChars, Int.toNat_of_nonneg h0]
  | month m y =>
    simp only [Period.yearOf] at hy1 hy2
    obtain ⟨hm1, hm2⟩ := hv
    have h0y : (0 : Int) ≤ y := by omega
    have h0m : (0 : Int) ≤ m := by omega
    have hkey : periodKey (.month m y) =
        natChars y.toNat ++ '-' :: padStart2 (natChars m.toNat) := by
      simp [periodKey, intChars_nonneg h0y, intChars_nonneg h0m]
    obtain ⟨hmclen, _, hmcdig⟩ := digit_block_spec
      (by omega : 1 ≤ m.toNat) (by omega : m.toNat ≤ 12)
    have hylen : (natChars y.toNat).length = 4 := natChars_length4 (by omega) (by omega)
    have hklen : (natChars y.toNat ++ '-' :: padStart2 (natChars m.toNat)).length = 7 := by
      simp [hylen, hmclen]
    have hsplit : splitOnDash (natChars y.toNat ++ '-' :: padStart2 (natChars m.toNat)) =
        [natChars y.toNat, padStart2 (natChars m.toNat)] := by
      rw [splitOnDash_append (fun h => ((natChars_digits _ h).2 rfl)),
        splitOnDash_no_dash (fun h => ((hmcdig _ h).2 rfl))]
    have hparse : parseIntJS (padStart2 (natChars m.toNat)) = some ((m.toNat : Int)) :=
      parseIntJS_padded (by omega) (by omega)
    rw [hkey]
    simp only [periodFromKey, hklen]
    norm_num
    simp [hsplit, hparse, parseIntJS_natChars, decodeParts,
      Int.toNat_of_nonneg h0y, Int.toNat_of_nonneg h0m, hm2]
  | quarter q y =>
    simp only [Period.yearOf] at hy1 hy2
    obtain ⟨hq1, hq2⟩ := hv
    have h0y : (0 : Int) ≤ y := by omega
    have h0q : (0 : Int) ≤ q + 32 := by omega
    have hkey : periodKey (.quarter q y) = natChars y.toNat ++ '-' :: natChars (q + 32).toNat := by
      simp [periodKey, intChars_nonneg h0y, intChars_nonneg h0q]
    have hqlen : (natChars (q + 32).toNat).length = 2 :=
      natChars_length2 (by omega) (by omega)
    have hylen : (natChars y.toNat).length = 4 := natChars_length4 (by omega) (by omega)
    have hklen : (natChars y.toNat ++ '-' :: natChars (q + 32).toNat).length = 7 := by
      simp [hylen, hqlen]
    have hsplit : splitOnDash (natChars y.toNat ++ '-' :: natChars (q + 32).toNat) =
        [natChars y.toNat, natChars (q + 32).toNat] := by
      rw [splitOnDash_append (fun h => ((natChars_digits _ h).2 rfl)),
        splitOnDash_no_dash (fun h => ((natChars_digits _ h).2 rfl))]
    rw [hkey]
    simp only [periodFromKey, hklen]
    norm_num
    simp only [hsplit, List.map_cons, List.map_nil, parseIntJS_natChars, decodeParts,
      Int.toNat_of_nonneg h0y, Int.toNat_of_nonneg h0q]
    have : ¬(q + 32 ≤ 12) := by omega
    simp [this]

/-- Witness for the amended key round-trip at the concrete period Jul-2023. -/
theorem periodFromKey_periodKey_witness :
    ValidPeriod (.month 7 2023) ∧ 1000 ≤ (Period.month 7 2023).yearOf ∧
      (Period.month 7 2023).yearOf ≤ 9999 ∧
      periodFromKey (periodKey (.month 7 2023)) = some (.month 7 2023) :=
  ⟨⟨by decide, by decide⟩, by decide, by decide,
    periodFromKey_periodKey (.month 7 2023) ⟨by decide, by decide⟩ (by decide) (by decide)⟩

/-! ## Structural lemmas about the JS map model -/

theorem jsGet_mem {κ α : Type} [DecidableEq κ] {l : List (κ × α)} {k : κ} {v : α}
    (h : jsGet l k = some v) : (k, v) ∈ l := by
  induction l with
  | nil => simp [jsGet] at h
  | cons e rest ih =>
    simp only [jsGet] at h
    by_cases he : e.1 = k
    · simp only [he, if_true] at h
      cases e with
      | mk k1 v1 =>
        simp only at he h
        injection h with h
        subst he h
        exact List.mem_cons_self _ _
    · simp only [he, if_false] at h
      exact List.mem_cons_of_mem _ (ih h)

theorem jsGet_jsSet_self {κ α : Type} [DecidableEq κ] {l : List (κ × α)} {k : κ} {v : α} :
    jsGet (jsSet l k v) k = some v := by
  induction l with
  | nil => simp [jsGet, jsSet]
  | cons e rest ih =>
    simp only [jsSet]
    by_cases he : e.1 = k
    · simp [jsGet, he]
    · simp [jsGet, he, ih]

theorem jsGet_jsSet_ne {κ α : Type} [DecidableEq κ] {l : List (κ × α)} {k k2 : κ} {v : α}
    (h : k2 ≠ k) : jsGet (jsSet l k v) k2 = jsGet l k2 := by
  induction l with
  | nil => simp [jsGet, jsSet, Ne.symm h]
  | cons e rest ih =>
    simp only [jsSet]
    by_cases he : e.1 = k
    · simp [jsGet, he, Ne.symm h]
    · rw [if_neg he]
      simp only [jsGet, ih]

theorem mem_jsSet {κ α : Type} [DecidableEq κ] {l : List (κ × α)} {k : κ} {v : α}
    {e : κ × α} (h : e ∈ jsSet l k v) : e = (k, v) ∨ e ∈ l := by
  induction l with
  | nil => simp [jsSet] at h; simp [h]
  | cons e2 rest ih =>
    simp only [jsSet] at h
    by_cases he : e2.1 = k
    · simp only [he, if_true, List.mem_cons] at h
      rcases h with h | h
      · exact Or.inl h
      · exact Or.inr (List.mem_cons_of_mem _ h)
    · simp only [he, if_false, List.mem_cons] at h
      rcases h with h | h
      · exact Or.inr (by simp [h])
      · rcases ih h with h | h
        · exact Or.inl h
        · exact Or.inr (List.mem_cons_of_mem _ h)

/-! ## Well-formedness of tables -/

/-- The metric names declared by a table's configuration, in declaration order. -/
def declaredNames (t : MetricsTable) : List String :=
  t.configuration.metrics.map (fun mc => mc.name)

/-- A table is well formed when its data map has a row exactly for the declared metric
names.  Every table built by the constructor is well formed and every engine operation
preserves this. -/
def WellFormed (t : MetricsTable) : Prop :=
  (∀ name ∈ declaredNames t, (jsGet t.data name).isSome = true) ∧
  (∀ e ∈ t.data, e.1 ∈ declaredNames t)

/-- An entry satisfying the condition under which `setValue` records it. -/
def RecordsChange (e : UpdatedMetricValue) : Prop :=
  e.oldValue = none ∨ e.value ≠ e.oldValue

/-- Unfolding equation for `setValue` when the metric has a row. -/
theorem setValue_eq {t : MetricsTable} {metric : String} {row : List (List Char × Decimal)}
    (period : Period) (nv : Option Decimal) (acc : List UpdatedMetricValue)
    (hj : jsGet t.data metric = some row) :
    setValue t metric period nv acc =
      if jsGet row (periodKey period) = none ∨ nv ≠ jsGet row (periodKey period) then
        .ok (⟨t.configuration, jsSet t.data metric
            (match nv with
             | some v => jsSet row (periodKey period) v
             | none => jsDelete row (periodKey period))⟩,
          acc ++ [⟨metric, period, nv, jsGet row (periodKey period)⟩])
      else .ok (t, acc) := by
  unfold setValue
  rw [hj]

/-- Unfolding equation for `setValue` when the metric has no row. -/
theorem setValue_eq_error {t : MetricsTable} {metric : String}
    (period : Period) (nv : Option Decimal) (acc : List UpdatedMetricValue)
    (hj : jsGet t.data metric = none) :
    setValue t metric period nv acc = .error (.unknownMetric metric) := by
  unfold setValue
  rw [hj]

/-- Everything `setValue` guarantees when it returns successfully. -/
theorem setValue_ok_cases {t : MetricsTable} {metric : String} {period : Period}
    {nv : Option Decimal} {acc : List UpdatedMetricValue} {t2 : MetricsTable}
    {acc2 : List UpdatedMetricValue}
    (h : setValue t metric period nv acc = .ok (t2, acc2)) :
    t2.configuration = t.configuration ∧
    (jsGet t.data metric).isSome = true ∧
    (acc2 = acc ∨ ∃ old, acc2 = acc ++ [⟨metric, period, nv, old⟩] ∧ (old = none ∨ nv ≠ old)) ∧
    (∀ n, (jsGet t2.data n).isSome = (jsGet t.data n).isSome) ∧
    (∀ e ∈ t2.data, e.1 = metric ∨ e ∈ t.data) := by
  cases hj : jsGet t.data metric with
  | none => rw [setValue_eq_error period nv acc hj] at h; simp at h
  | some row =>
    rw [setValue_eq period nv acc hj] at h
    by_cases hcond : jsGet row (periodKey period) = none ∨ nv ≠ jsGet row (periodKey period)
    · rw [if_pos hcond] at h
      simp only [Except.ok.injEq, Prod.mk.injEq] at h
      obtain ⟨ht, hacc⟩ := h
      subst hacc
      refine ⟨by rw [← ht], by simp [hj],
        Or.inr ⟨jsGet row (periodKey period), rfl, hcond⟩, ?_, ?_⟩
      · intro n
        rw [← ht]
        by_cases hn : n = metric
        · subst hn; simp [jsGet_jsSet_self, hj]
        · simp [jsGet_jsSet_ne hn]
      · intro e he
        rw [← ht] at he
        rcases mem_jsSet he with h | h
        · exact Or.inl (by simp [h])
        · exact Or.inr h
    · rw [if_neg hcond] at h
      simp only [Except.ok.injEq, Prod.mk.injEq] at h
      obtain ⟨ht, hacc⟩ := h
      subst ht hacc
      exact ⟨rfl, by simp [hj], Or.inl rfl, fun _ => rfl, fun e he => Or.inr he⟩

/-- A failing `setValue` means the metric has no row, and the error names it. -/
theorem setValue_error_cases {t : MetricsTable} {metric : String} {period : Period}
    {nv : Option Decimal} {acc : List UpdatedMetricValue} {e : MetricsError}
    (h : setValue t metric period nv acc = .error e) :
    jsGet t.data metric = none ∧ e = .unknownMetric metric := by
  cases hj : jsGet t.data metric with
  | none =>
    rw [setValue_eq_error period nv acc hj] at h
    simp only [Except.error.injEq] at h
    exact ⟨rfl, h.symm⟩
  | some row =>
    rw [setValue_eq period nv acc hj] at h
    by_cases hcond : jsGet row (periodKey period) = none ∨ nv ≠ jsGet row (periodKey period)
    · rw [if_pos hcond] at h; simp at h
    · rw [if_neg hcond] at h; simp at h

/-- The primitive `setValue` succeeds whenever the metric has a row. -/
theorem setValue_ok_of_known {t : MetricsTable} {metric : String} (period : Period)
    (nv : Option Decimal) (acc : List UpdatedMetricValue)
    (h : (jsGet t.data metric).isSome = true) :
    ∃ st2, setValue t metric period nv acc = .ok st2 := by
  cases hj : jsGet t.data metric with
  | none => rw [hj] at h; simp at h
  | some row =>
    rw [setValue_eq period nv acc hj]
    by_cases hcond : jsGet row (periodKey period) = none ∨ nv ≠ jsGet row (periodKey period)
    · rw [if_pos hcond]; exact ⟨_, rfl⟩
    · rw [if_neg hcond]; exact ⟨_, rfl⟩

/-- Unfolding equation for `getValue` with a row present. -/
theorem getValue_eq_ok {t : MetricsTable} {metric : String} {row : List (List Char × Decimal)}
    (period : Period) (hj : jsGet t.data metric = some row) :
    getValue t metric period = .ok (jsGet row (periodKey period)) := by
  unfold getValue
  rw [hj]

/-- Unfolding equation for `getValue` with no row. -/
theorem getValue_eq_error {t : MetricsTable} {metric : String} (period : Period)
    (hj : jsGet t.data metric = none) :
    getValue t metric period = .error (.unknownMetric metric) := by
  unfold getValue
  rw [hj]

/-- An invariant preserved by every successful step is preserved by `exceptFoldl`. -/
theorem exceptFoldl_inv {α β ε : Type} {f : α → β → Except ε α} {Q : α → Prop} :
    ∀ {l : List β} {s s2 : α},
      (∀ s b, b ∈ l → Q s → ∀ s3, f s b = .ok s3 → Q s3) →
      Q s → exceptFoldl f s l = .ok s2 → Q s2 := by
  intro l
  induction l with
  | nil =>
    intro s s2 _ hq h
    simp only [exceptFoldl, Except.ok.injEq] at h
    exact h ▸ hq
  | cons b rest ih =>
    intro s s2 hf hq h
    simp only [exceptFoldl] at h
    cases hfb : f s b with
    | error e => rw [hfb] at h; exact absurd h (by simp)
    | ok s3 =>
      rw [hfb] at h
      exact ih (fun s4 b2 hb2 => hf s4 b2 (List.mem_cons_of_mem _ hb2))
        (hf s b (by simp) hq s3 hfb) h

/-- When every step succeeds and preserves an invariant, `exceptFoldl` succeeds. -/
theorem exceptFoldl_ok {α β ε : Type} {f : α → β → Except ε α} {Q : α → Prop} :
    ∀ {l : List β} {s : α},
      (∀ s b, b ∈ l → Q s → ∃ s2, f s b = .ok s2 ∧ Q s2) →
      Q s → ∃ s2, exceptFoldl f s l = .ok s2 ∧ Q s2 := by
  intro l
  induction l with
  | nil => intro s _ hq; exact ⟨s, rfl, hq⟩
  | cons b rest ih =>
    intro s hf hq
    obtain ⟨s2, hfb, hq2⟩ := hf s b (by simp) hq
    obtain ⟨s3, hrest, hq3⟩ := ih (fun s4 b2 hb2 => hf s4 b2 (List.mem_cons_of_mem _ hb2)) hq2
    refine ⟨s3, ?_, hq3⟩
    simp only [exceptFoldl, hfb, hrest]

/-- A successful `setValue` keeps every recorded entry a `RecordsChange` entry. -/
theorem setValue_records {t : MetricsTable} {metric : String} {period : Period}
    {nv : Option Decimal} {acc : List UpdatedMetricValue} {t2 : MetricsTable}
    {acc2 : List UpdatedMetricValue}
    (h : setValue t metric period nv acc = .ok (t2, acc2))
    (ha : ∀ e ∈ acc, RecordsChange e) : ∀ e ∈ acc2, RecordsChange e := by
  rcases (setValue_ok_cases h).2.2.1 with h1 | ⟨old, h1, h2⟩
  · exact h1 ▸ ha
  · subst h1
    intro e he
    rcases List.mem_append.1 he with he | he
    · exact ha e he
    · rw [List.mem_singleton] at he
      subst he
      exact h2

/-- A successful `setValue` preserves well-formedness and the configuration. -/
theorem setValue_preserves_wf {t : MetricsTable} {metric : String} {period : Period}
    {nv : Option Decimal} {acc : List UpdatedMetricValue} {t2 : MetricsTable}
    {acc2 : List UpdatedMetricValue}
    (h : setValue t metric period nv acc = .ok (t2, acc2)) (hwf : WellFormed t) :
    WellFormed t2 ∧ t2.configuration = t.configuration := by
  obtain ⟨hconf, hsome, _, hpt, hmem⟩ := setValue_ok_cases h
  have hdecl : declaredNames t2 = declaredNames t := by
    unfold declaredNames
    rw [hconf]
  have hmet : metric ∈ declaredNames t := by
    obtain ⟨row, hrow⟩ := Option.isSome_iff_exists.1 hsome
    exact hwf.2 _ (jsGet_mem hrow)
  refine ⟨⟨?_, ?_⟩, hconf⟩
  · intro name hn
    rw [hpt]
    exact hwf.1 name (hdecl ▸ hn)
  · intro e he
    rw [hdecl]
    rcases hmem e he with h1 | h1
    · exact h1 ▸ hmet
    · exact hwf.2 e h1

/-- Table-plus-accumulator invariant carried through `recompute`: fixed configuration,
well-formedness, and all recorded entries record changes. -/
def EngineInv (cfg : MetricsTableConfiguration) (st : MetricsTable × List UpdatedMetricValue) :
    Prop :=
  st.1.configuration = cfg ∧ WellFormed st.1 ∧ ∀ e ∈ st.2, RecordsChange e

/-- Unfolding equations for `computeMetricStep`. -/
theorem computeMetricStep_eq_none {period : Period} {st : MetricsTable × List UpdatedMetricValue}
    {mc : MetricConfiguration} (h : mc.compute = none) :
    computeMetricStep period st mc = .ok st := by
  unfold computeMetricStep
  rw [h]

/-- Unfolding equation for `computeMetricStep` on a metric with a compute rule. -/
theorem computeMetricStep_eq_some {period : Period} {st : MetricsTable × List UpdatedMetricValue}
    {mc : MetricConfiguration} {f : TableData → Period → Option Decimal → Option Decimal}
    {row : List (List Char × Decimal)} (hf : mc.compute = some f)
    (hrow : jsGet st.1.data mc.name = some row) :
    computeMetricStep period st mc =
      setValue st.1 mc.name period (f st.1.data period (jsGet row (periodKey period))) st.2 := by
  unfold computeMetricStep
  rw [hf, getValue_eq_ok period hrow]

/-- Unfolding equations for `computeAggregateStep`. -/
theorem computeAggregateStep_eq_none {period : Period} {includedPeriods : List Period}
    {st : MetricsTable × List UpdatedMetricValue} {mc : MetricConfiguration}
    (h : mc.aggregate = none) :
    computeAggregateStep period includedPeriods st mc = .ok st := by
  unfold computeAggregateStep
  rw [h]

/-- Unfolding equation for `computeAggregateStep` on a metric with an aggregate rule. -/
theorem computeAggregateStep_eq_some {period : Period} {includedPeriods : List Period}
    {st : MetricsTable × List UpdatedMetricValue} {mc : MetricConfiguration}
    {rule : AggregateRule} {row : List (List Char × Decimal)} (hr : mc.aggregate = some rule)
    (hrow : jsGet st.1.data mc.name = some row) :
    computeAggregateStep period includedPeriods st mc =
      setValue st.1 mc.name period
        (aggregateValue st.1 mc.name rule includedPeriods period (jsGet row (periodKey period)))
        st.2 := by
  unfold computeAggregateStep
  rw [hr, getValue_eq_ok period hrow]

/-- A Phase A step succeeds on configured metrics and preserves the invariant. -/
theorem computeMetricStep_ok {cfg : MetricsTableConfiguration} {period : Period}
    {st : MetricsTable × List UpdatedMetricValue} {mc : MetricConfiguration}
    (hmc : mc ∈ cfg.metrics) (hq : EngineInv cfg st) :
    ∃ st2, computeMetricStep period st mc = .ok st2 ∧ EngineInv cfg st2 := by
  obtain ⟨hconf, hwf, hrec⟩ := hq
  cases hc : mc.compute with
  | none => exact ⟨st, computeMetricStep_eq_none hc, hconf, hwf, hrec⟩
  | some f =>
    have hmem : mc.name ∈ declaredNames st.1 := by
      unfold declaredNames
      rw [hconf]
      exact List.mem_map_of_mem _ hmc
    have hsome := hwf.1 _ hmem
    obtain ⟨row, hrow⟩ := Option.isSome_iff_exists.1 hsome
    obtain ⟨⟨t2, acc2⟩, hset⟩ := setValue_ok_of_known period
      (f st.1.data period (jsGet row (periodKey period))) st.2 hsome
    obtain ⟨hwf2, hconf2⟩ := setValue_preserves_wf hset hwf
    exact ⟨(t2, acc2), (computeMetricStep_eq_some hc hrow).trans hset,
      hconf2.trans hconf, hwf2, setValue_records hset hrec⟩

/-- An aggregation step succeeds on configured metrics and preserves the invariant. -/
theorem computeAggregateStep_ok {cfg : MetricsTableConfiguration} {period : Period}
    {includedPeriods : List Period} {st : MetricsTable × List UpdatedMetricValue}
    {mc : MetricConfiguration}
    (hmc : mc ∈ cfg.metrics) (hq : EngineInv cfg st) :
    ∃ st2, computeAggregateStep period includedPeriods st mc = .ok st2 ∧ EngineInv cfg st2 := by
  obtain ⟨hconf, hwf, hrec⟩ := hq
  cases hr : mc.aggregate with
  | none => exact ⟨st, computeAggregateStep_eq_none hr, hconf, hwf, hrec⟩
  | some rule =>
    have hmem : mc.name ∈ declaredNames st.1 := by
      unfold declaredNames
      rw [hconf]
      exact List.mem_map_of_mem _ hmc
    have hsome := hwf.1 _ hmem
    obtain ⟨row, hrow⟩ := Option.isSome_iff_exists.1 hsome
    obtain ⟨⟨t2, acc2⟩, hset⟩ := setValue_ok_of_known period
      (aggregateValue st.1 mc.name rule includedPeriods period (jsGet row (periodKey period)))
      st.2 hsome
    obtain ⟨hwf2, hconf2⟩ := setValue_preserves_wf hset hwf
    exact ⟨(t2, acc2), (computeAggregateStep_eq_some hr hrow).trans hset,
      hconf2.trans hconf, hwf2, setValue_records hset hrec⟩

/-- The loop `computeAggregate` succeeds under the invariant and preserves it. -/
theorem computeAggregate_ok {cfg : MetricsTableConfiguration}
    {st : MetricsTable × List UpdatedMetricValue} {period : Period}
    {includedPeriods : List Period} (hq : EngineInv cfg st) :
    ∃ st2, computeAggregate st period includedPeriods = .ok st2 ∧ EngineInv cfg st2 := by
  unfold computeAggregate
  rw [show st.1.configuration.metrics = cfg.metrics from by rw [hq.1]]
  exact exceptFoldl_ok (fun s mc hmc hqs => computeAggregateStep_ok hmc hqs) hq

/-- The pass `recompute` succeeds under the invariant and preserves it. -/
theorem recompute_ok {cfg : MetricsTableConfiguration} {t : MetricsTable}
    {acc : List UpdatedMetricValue} (hconf : t.configuration = cfg) (hwf : WellFormed t)
    (hrec : ∀ e ∈ acc, RecordsChange e) :
    ∃ st2, recompute t acc = .ok st2 ∧ EngineInv cfg st2 := by
  unfold recompute
  simp only []
  obtain ⟨st1, hfold1, hq1⟩ : ∃ st2, exceptFoldl (fun st period =>
      exceptFoldl (computeMetricStep period) st st.1.configuration.metrics) (t, acc)
      ((getPeriods t).filter (fun p => !isAggregate t p)) = .ok st2 ∧ EngineInv cfg st2 := by
    refine exceptFoldl_ok (fun s period _ hqs => ?_) ⟨hconf, hwf, hrec⟩
    rw [show s.1.configuration.metrics = cfg.metrics from by rw [hqs.1]]
    exact exceptFoldl_ok (fun s2 mc hmc hqs2 => computeMetricStep_ok hmc hqs2) hqs
  rw [hfold1]
  by_cases hquarter : t.configuration.aggregates.quarter
  · simp only [hquarter, if_true]
    obtain ⟨st2, hfold2, hq2⟩ : ∃ st3, exceptFoldl (fun st y => exceptFoldl (fun st2 q =>
        computeAggregate st2 (.quarter q y) (getMonthsForQuarter q y)) st
        ([1, 2, 3, 4] : List Int)) st1
        (dedupe (((getPeriods t).filter (fun p => !isAggregate t p)).map Period.yearOf)) =
          .ok st3 ∧ EngineInv cfg st3 := by
      refine exceptFoldl_ok (fun s y _ hqs => ?_) hq1
      exact exceptFoldl_ok (fun s2 q _ hqs2 => computeAggregate_ok hqs2) hqs
    rw [hfold2]
    by_cases hyear : t.configuration.aggregates.year
    · simp only [hyear, if_true]
      exact exceptFoldl_ok (fun s y _ hqs => computeAggregate_ok hqs) hq2
    · simp only [hyear, if_false]
      exact ⟨st2, rfl, hq2⟩
  · simp only [hquarter, if_false]
    by_cases hyear : t.configuration.aggregates.year
    · simp only [hyear, if_true]
      exact exceptFoldl_ok (fun s y _ hqs => computeAggregate_ok hqs) hq1
    · simp only [hyear, if_false]
      exact ⟨st1, rfl, hq1⟩

/-- Unfolding equation for the write loop on a successful head write. -/
theorem updateWrites_cons_ok {t : MetricsTable} {v : MetricValue} {rest : List MetricValue}
    {acc : List UpdatedMetricValue} {t2 : MetricsTable} {acc2 : List UpdatedMetricValue}
    (hset : setValue t v.metric v.period v.value acc = .ok (t2, acc2)) :
    updateWrites t (v :: rest) acc = updateWrites t2 rest acc2 := by
  conv_lhs => unfold updateWrites
  rw [hset]

/-- Unfolding equation for the write loop on a failing head write. -/
theorem updateWrites_cons_error {t : MetricsTable} {v : MetricValue} {rest : List MetricValue}
    {acc : List UpdatedMetricValue} {e : MetricsError}
    (hset : setValue t v.metric v.period v.value acc = .error e) :
    updateWrites t (v :: rest) acc = (t, .error e) := by
  unfold updateWrites
  rw [hset]

/-- Successful writes: when every triple names a declared metric, the write loop succeeds,
preserves the invariant, and keeps every recorded entry a change record. -/
theorem updateWrites_ok {values : List MetricValue} :
    ∀ {t : MetricsTable} {acc : List UpdatedMetricValue},
      WellFormed t → (∀ e ∈ acc, RecordsChange e) →
      (∀ v ∈ values, v.metric ∈ declaredNames t) →
      ∃ t2 acc2, updateWrites t values acc = (t2, .ok acc2) ∧ WellFormed t2 ∧
        t2.configuration = t.configuration ∧ (∀ e ∈ acc2, RecordsChange e) := by
  induction values with
  | nil => intro t acc hwf hrec _; exact ⟨t, acc, rfl, hwf, rfl, hrec⟩
  | cons v rest ih =>
    intro t acc hwf hrec hall
    have hsome := hwf.1 _ (hall v (by simp))
    obtain ⟨⟨t2, acc2⟩, hset⟩ := setValue_ok_of_known v.period v.value acc hsome
    obtain ⟨hwf2, hconf2⟩ := setValue_preserves_wf hset hwf
    have hdecl2 : declaredNames t2 = declaredNames t := by
      unfold declaredNames
      rw [hconf2]
    obtain ⟨t3, acc3, hrest, hwf3, hconf3, hrec3⟩ := ih hwf2 (setValue_records hset hrec)
      (fun v2 hv2 => hdecl2 ▸ hall v2 (List.mem_cons_of_mem _ hv2))
    refine ⟨t3, acc3, ?_, hwf3, hconf3.trans hconf2, hrec3⟩
    rw [updateWrites_cons_ok hset, hrest]

/-- A failing write loop pins down an unknown metric among the triples and the error
value; moreover the resulting table is the one obtained by writing only the triples
before the first unknown one (`takeWhile`), with no recomputation. -/
theorem updateWrites_error {values : List MetricValue} :
    ∀ {t : MetricsTable} {acc : List UpdatedMetricValue} {t2 : MetricsTable}
      {e : MetricsError},
      WellFormed t → updateWrites t values acc = (t2, .error e) →
      (∃ v ∈ values, v.metric ∉ declaredNames t ∧ e = .unknownMetric v.metric) ∧
      t2 = (updateWrites t
        (values.takeWhile (fun v => decide (v.metric ∈ declaredNames t))) acc).1 := by
  induction values with
  | nil =>
    intro t acc t2 e _ h
    simp only [updateWrites, Prod.mk.injEq] at h
    exact absurd h.2 (by simp)
  | cons v rest ih =>
    intro t acc t2 e hwf h
    by_cases hv : v.metric ∈ declaredNames t
    · have hsome := hwf.1 _ hv
      obtain ⟨⟨ta, acca⟩, hset⟩ := setValue_ok_of_known v.period v.value acc hsome
      obtain ⟨hwfa, hconfa⟩ := setValue_preserves_wf hset hwf
      have hdecla : declaredNames ta = declaredNames t := by
        unfold declaredNames
        rw [hconfa]
      have h2 : updateWrites ta rest acca = (t2, .error e) := by
        rw [← updateWrites_cons_ok hset]
        exact h
      obtain ⟨⟨v2, hmem, hv2, he⟩, hstate⟩ := ih hwfa h2
      refine ⟨⟨v2, List.mem_cons_of_mem _ hmem, hdecla ▸ hv2, he⟩, ?_⟩
      rw [List.takeWhile_cons, if_pos (by simpa using hv)]
      have hpred : (fun v2 : MetricValue => decide (v2.metric ∈ declaredNames ta)) =
          (fun v2 : MetricValue => decide (v2.metric ∈ declaredNames t)) := by
        funext v2
        rw [hdecla]
      rw [updateWrites_cons_ok hset]
      rw [hpred] at hstate
      exact hstate
    · have hnone : jsGet t.data v.metric = none := by
        cases hj : jsGet t.data v.metric with
        | none => rfl
        | some row => exact absurd (hwf.2 _ (jsGet_mem hj)) hv
      have herr := setValue_eq_error v.period v.value acc hnone
      rw [updateWrites_cons_error herr] at h
      simp only [Prod.mk.injEq, Except.error.injEq] at h
      refine ⟨⟨v, by simp, hv, h.2.symm⟩, ?_⟩
      rw [List.takeWhile_cons, if_neg (by simpa using hv)]
      simp only [updateWrites]
      exact h.1.symm

/-- The write loop leaves the configuration unchanged even when it fails. -/
theorem updateWrites_configuration {values : List MetricValue} :
    ∀ {t : MetricsTable} {acc : List UpdatedMetricValue},
      (updateWrites t values acc).1.configuration = t.configuration := by
  induction values with
  | nil => intro t acc; rfl
  | cons v rest ih =>
    intro t acc
    cases hset : setValue t v.metric v.period v.value acc with
    | error e => rw [updateWrites_cons_error hset]
    | ok st2 =>
      obtain ⟨t2, acc2⟩ := st2
      rw [updateWrites_cons_ok hset]
      exact (ih (t := t2)).trans (setValue_ok_cases hset).1

/-- Unfolding equation for `update` when the write loop fails. -/
theorem update_eq_writes_error {t : MetricsTable} {values : List MetricValue}
    {t2 : MetricsTable} {e : MetricsError}
    (hw : updateWrites t values [] = (t2, .error e)) :
    update t values = (t2, .error e) := by
  unfold update
  rw [hw]

/-- Unfolding equation for `update` when the write loop and recompute succeed. -/
theorem update_eq_ok {t : MetricsTable} {values : List MetricValue} {t2 : MetricsTable}
    {acc : List UpdatedMetricValue} {t3 : MetricsTable} {acc3 : List UpdatedMetricValue}
    (hw : updateWrites t values [] = (t2, .ok acc)) (hr : recompute t2 acc = .ok (t3, acc3)) :
    update t values = (t3, .ok acc3) := by
  unfold update
  rw [hw]
  show (match recompute t2 acc with
    | Except.error e => (t2, Except.error e)
    | Except.ok (t4, acc4) => (t4, Except.ok acc4)) = (t3, Except.ok acc3)
  rw [hr]

/-- Unfolding equation for `update` when the write loop succeeds and recompute fails. -/
theorem update_eq_recompute_error {t : MetricsTable} {values : List MetricValue}
    {t2 : MetricsTable} {acc : List UpdatedMetricValue} {e : MetricsError}
    (hw : updateWrites t values [] = (t2, .ok acc)) (hr : recompute t2 acc = .error e) :
    update t values = (t2, .error e) := by
  unfold update
  rw [hw]
  show (match recompute t2 acc with
    | Except.error e => (t2, Except.error e)
    | Except.ok (t4, acc4) => (t4, Except.ok acc4)) = (t2, Except.error e)
  rw [hr]

/-- A successful `update` decomposes into a successful write loop and recompute. -/
theorem update_ok_cases {t : MetricsTable} {values : List MetricValue} {t2 : MetricsTable}
    {updated : List UpdatedMetricValue} (h : update t values = (t2, .ok updated)) :
    ∃ ta acc, updateWrites t values [] = (ta, .ok acc) ∧
      recompute ta acc = .ok (t2, updated) := by
  cases hw : updateWrites t values [] with
  | mk ta res =>
    cases res with
    | error e =>
      rw [update_eq_writes_error hw] at h
      simp at h
    | ok acc =>
      cases hr : recompute ta acc with
      | error e =>
        rw [update_eq_recompute_error hw hr] at h
        simp at h
      | ok st3 =>
        obtain ⟨t3, acc3⟩ := st3
        rw [update_eq_ok hw hr] at h
        simp only [Prod.mk.injEq, Except.ok.injEq] at h
        refine ⟨ta, acc, rfl, ?_⟩
        rw [hr, h.1, h.2]

/-- A successful write loop keeps every recorded entry a change record (no
well-formedness needed). -/
theorem updateWrites_records {values : List MetricValue} :
    ∀ {t : MetricsTable} {acc : List UpdatedMetricValue} {t2 : MetricsTable}
      {acc2 : List UpdatedMetricValue},
      (∀ e ∈ acc, RecordsChange e) → updateWrites t values acc = (t2, .ok acc2) →
      ∀ e ∈ acc2, RecordsChange e := by
  induction values with
  | nil =>
    intro t acc t2 acc2 hrec h
    simp only [updateWrites, Prod.mk.injEq, Except.ok.injEq] at h
    exact h.2 ▸ hrec
  | cons v rest ih =>
    intro t acc t2 acc2 hrec h
    cases hset : setValue t v.metric v.period v.value acc with
    | error e =>
      rw [updateWrites_cons_error hset] at h
      simp at h
    | ok st2 =>
      obtain ⟨ta, acca⟩ := st2
      rw [updateWrites_cons_ok hset] at h
      exact ih (setValue_records hset hrec) h

/-- A successful write loop preserves well-formedness and the configuration. -/
theorem updateWrites_ok_wf {values : List MetricValue} :
    ∀ {t : MetricsTable} {acc : List UpdatedMetricValue} {t2 : MetricsTable}
      {acc2 : List UpdatedMetricValue},
      WellFormed t → updateWrites t values acc = (t2, .ok acc2) →
      WellFormed t2 ∧ t2.configuration = t.configuration := by
  induction values with
  | nil =>
    intro t acc t2 acc2 hwf h
    simp only [updateWrites, Prod.mk.injEq, Except.ok.injEq] at h
    exact ⟨h.1 ▸ hwf, by rw [← h.1]⟩
  | cons v rest ih =>
    intro t acc t2 acc2 hwf h
    cases hset : setValue t v.metric v.period v.value acc with
    | error e =>
      rw [updateWrites_cons_error hset] at h
      simp at h
    | ok st2 =>
      obtain ⟨ta, acca⟩ := st2
      rw [updateWrites_cons_ok hset] at h
      obtain ⟨hwfa, hconfa⟩ := setValue_preserves_wf hset hwf
      obtain ⟨hwf2, hconf2⟩ := ih hwfa h
      exact ⟨hwf2, hconf2.trans hconfa⟩

/-- When some triple names an unknown metric, the write loop fails. -/
theorem updateWrites_error_of_unknown {values : List MetricValue} :
    ∀ {t : MetricsTable} {acc : List UpdatedMetricValue},
      WellFormed t → (∃ v ∈ values, v.metric ∉ declaredNames t) →
      ∃ t2 e, updateWrites t values acc = (t2, .error e) := by
  induction values with
  | nil =>
    intro t acc _ h
    obtain ⟨v, hv, _⟩ := h
    simp at hv
  | cons v rest ih =>
    intro t acc hwf h
    by_cases hv : v.metric ∈ declaredNames t
    · have hsome := hwf.1 _ hv
      obtain ⟨⟨ta, acca⟩, hset⟩ := setValue_ok_of_known v.period v.value acc hsome
      obtain ⟨hwfa, hconfa⟩ := setValue_preserves_wf hset hwf
      have hdecla : declaredNames ta = declaredNames t := by
        unfold declaredNames
        rw [hconfa]
      have hrest : ∃ v2 ∈ rest, v2.metric ∉ declaredNames ta := by
        obtain ⟨v2, hmem, hv2⟩ := h
        rcases List.mem_cons.1 hmem with hh | hh
        · exact absurd (hh ▸ hv) hv2
        · exact ⟨v2, hh, hdecla ▸ hv2⟩
      obtain ⟨t2, e, h2⟩ := ih hwfa hrest
      exact ⟨t2, e, by rw [updateWrites_cons_ok hset]; exact h2⟩
    · have hnone : jsGet t.data v.metric = none := by
        cases hj : jsGet t.data v.metric with
        | none => rfl
        | some row => exact absurd (hwf.2 _ (jsGet_mem hj)) hv
      exact ⟨t, .unknownMetric v.metric,
        updateWrites_cons_error (setValue_eq_error v.period v.value acc hnone)⟩

/-- A successful Phase A step keeps every recorded entry a change record. -/
theorem computeMetricStep_records {period : Period}
    {st st2 : MetricsTable × List UpdatedMetricValue} {mc : MetricConfiguration}
    (h : computeMetricStep period st mc = .ok st2)
    (hrec : ∀ e ∈ st.2, RecordsChange e) : ∀ e ∈ st2.2, RecordsChange e := by
  cases hc : mc.compute with
  | none =>
    rw [computeMetricStep_eq_none hc] at h
    simp only [Except.ok.injEq] at h
    exact h ▸ hrec
  | some f =>
    cases hj : jsGet st.1.data mc.name with
    | none =>
      rw [show computeMetricStep period st mc = .error (.unknownMetric mc.name) from by
        unfold computeMetricStep
        rw [hc, getValue_eq_error period hj]] at h
      simp at h
    | some row =>
      rw [computeMetricStep_eq_some hc hj] at h
      cases st2 with
      | mk t2 acc2 => exact setValue_records h hrec

/-- A successful aggregation step keeps every recorded entry a change record. -/
theorem computeAggregateStep_records {period : Period} {includedPeriods : List Period}
    {st st2 : MetricsTable × List UpdatedMetricValue} {mc : MetricConfiguration}
    (h : computeAggregateStep period includedPeriods st mc = .ok st2)
    (hrec : ∀ e ∈ st.2, RecordsChange e) : ∀ e ∈ st2.2, RecordsChange e := by
  cases hc : mc.aggregate with
  | none =>
    rw [computeAggregateStep_eq_none hc] at h
    simp only [Except.ok.injEq] at h
    exact h ▸ hrec
  | some rule =>
    cases hj : jsGet st.1.data mc.name with
    | none =>
      rw [show computeAggregateStep period includedPeriods st mc =
          .error (.unknownMetric mc.name) from by
        unfold computeAggregateStep
        rw [hc, getValue_eq_error period hj]] at h
      simp at h
    | some row =>
      rw [computeAggregateStep_eq_some hc hj] at h
      cases st2 with
      | mk t2 acc2 => exact setValue_records h hrec

/-- A successful `recompute` keeps every recorded entry a change record (no
well-formedness needed: whichever steps succeeded preserved it). -/
theorem recompute_records {t : MetricsTable} {acc : List UpdatedMetricValue}
    {t3 : MetricsTable} {acc3 : List UpdatedMetricValue}
    (h : recompute t acc = .ok (t3, acc3))
    (hrec : ∀ e ∈ acc, RecordsChange e) : ∀ e ∈ acc3, RecordsChange e := by
  have hQ : ∀ (st st2 : MetricsTable × List UpdatedMetricValue) (period : Period),
      (∀ e ∈ st.2, RecordsChange e) →
      exceptFoldl (computeMetricStep period) st st.1.configuration.metrics = .ok st2 →
      ∀ e ∈ st2.2, RecordsChange e := fun st st2 period hq hfold =>
    exceptFoldl_inv (Q := fun st : MetricsTable × List UpdatedMetricValue => ∀ e ∈ st.2, RecordsChange e)
      (fun s mc _ hqs s3 hstep => computeMetricStep_records hstep hqs) hq hfold
  have hA : ∀ (st st2 : MetricsTable × List UpdatedMetricValue) (period : Period)
      (included : List Period),
      (∀ e ∈ st.2, RecordsChange e) →
      computeAggregate st period included = .ok st2 →
      ∀ e ∈ st2.2, RecordsChange e := by
    intro st st2 period included hq hca
    unfold computeAggregate at hca
    exact exceptFoldl_inv (Q := fun st : MetricsTable × List UpdatedMetricValue => ∀ e ∈ st.2, RecordsChange e)
      (fun s mc _ hqs s3 hstep => computeAggregateStep_records hstep hqs) hq hca
  revert h
  unfold recompute
  simp only []
  cases h1 : exceptFoldl (fun st period => exceptFoldl (computeMetricStep period) st
      st.1.configuration.metrics) (t, acc)
      ((getPeriods t).filter (fun p => !isAggregate t p)) with
  | error e => intro h; simp at h
  | ok st1 =>
    intro h
    simp only [] at h
    have hq1 : ∀ e ∈ st1.2, RecordsChange e :=
      exceptFoldl_inv (Q := fun st : MetricsTable × List UpdatedMetricValue => ∀ e ∈ st.2, RecordsChange e)
        (fun s period _ hqs s2 hstep => hQ s s2 period hqs hstep) hrec h1
    cases h2 : (if t.configuration.aggregates.quarter = true then
        exceptFoldl (fun st y => exceptFoldl (fun st2 q =>
          computeAggregate st2 (.quarter q y) (getMonthsForQuarter q y)) st
            ([1, 2, 3, 4] : List Int)) st1
          (dedupe (((getPeriods t).filter (fun p => !isAggregate t p)).map Period.yearOf))
      else .ok st1) with
    | error e => rw [h2] at h; simp at h
    | ok st2 =>
      rw [h2] at h
      simp only [] at h
      have hq2 : ∀ e ∈ st2.2, RecordsChange e := by
        by_cases hquarter : t.configuration.aggregates.quarter = true
        · rw [if_pos hquarter] at h2
          refine exceptFoldl_inv (Q := fun st : MetricsTable × List UpdatedMetricValue => ∀ e ∈ st.2, RecordsChange e) (fun s y _ hqs s2 hstep => ?_) hq1 h2
          exact exceptFoldl_inv (Q := fun st : MetricsTable × List UpdatedMetricValue => ∀ e ∈ st.2, RecordsChange e)
            (fun s3 q _ hqs3 s4 hstep4 => hA s3 s4 _ _ hqs3 hstep4) hqs hstep
        · rw [if_neg hquarter] at h2
          simp only [Except.ok.injEq] at h2
          exact h2 ▸ hq1
      by_cases hyear : t.configuration.aggregates.year = true
      · rw [if_pos hyear] at h
        exact exceptFoldl_inv (Q := fun st : MetricsTable × List UpdatedMetricValue => ∀ e ∈ st.2, RecordsChange e)
          (fun s y _ hqs s2 hstep => hA s s2 _ _ hqs hstep) hq2 h
      · rw [if_neg hyear] at h
        simp only [Except.ok.injEq] at h
        have he2 : st2.2 = acc3 := by rw [h]
        exact he2 ▸ hq2

/-- A fold whose steps leave the state unchanged returns the initial state. -/
theorem exceptFoldl_id {α β ε : Type} {f : α → β → Except ε α} {s : α} :
    ∀ {l : List β}, (∀ b ∈ l, f s b = .ok s) → exceptFoldl f s l = .ok s := by
  intro l
  induction l with
  | nil => intro _; rfl
  | cons b rest ih =>
    intro hf
    simp only [exceptFoldl, hf b (by simp)]
    exact ih (fun b2 hb2 => hf b2 (List.mem_cons_of_mem _ hb2))

/-- On a configuration with no compute and no aggregate rules, `recompute` is the
identity: it loops over all known base periods and all enabled aggregates but writes
nothing. -/
theorem recompute_no_rules {t : MetricsTable} {acc : List UpdatedMetricValue}
    (hrules : ∀ mc ∈ t.configuration.metrics, mc.compute = none ∧ mc.aggregate = none) :
    recompute t acc = .ok (t, acc) := by
  have hA : ∀ (period : Period),
      exceptFoldl (computeMetricStep period) (t, acc) t.configuration.metrics =
        .ok (t, acc) :=
    fun period => exceptFoldl_id (fun mc hmc => computeMetricStep_eq_none (hrules mc hmc).1)
  have hAgg : ∀ (period : Period) (included : List Period),
      computeAggregate ((t, acc) : MetricsTable × List UpdatedMetricValue) period included =
        .ok (t, acc) := by
    intro period included
    unfold computeAggregate
    exact exceptFoldl_id (fun mc hmc => computeAggregateStep_eq_none (hrules mc hmc).2)
  unfold recompute
  simp only []
  rw [exceptFoldl_id (fun period _ => hA period)]
  simp only []
  have hq : (if t.configuration.aggregates.quarter = true then
      exceptFoldl (fun st y => exceptFoldl (fun st2 q =>
        computeAggregate st2 (.quarter q y) (getMonthsForQuarter q y)) st
          ([1, 2, 3, 4] : List Int)) ((t, acc) : MetricsTable × List UpdatedMetricValue)
        (dedupe (((getPeriods t).filter (fun p => !isAggregate t p)).map Period.yearOf))
    else .ok (t, acc)) = .ok (t, acc) := by
    by_cases hquarter : t.configuration.aggregates.quarter = true
    · rw [if_pos hquarter]
      exact exceptFoldl_id (fun y _ => exceptFoldl_id (fun q _ => hAgg _ _))
    · rw [if_neg hquarter]
  rw [hq]
  simp only []
  by_cases hyear : t.configuration.aggregates.year = true
  · rw [if_pos hyear]
    exact exceptFoldl_id (fun y _ => hAgg _ _)
  · rw [if_neg hyear]

/-- Claim C1, amended: (1) every entry of the changed-values list of a successful
`update` in which the old or the new value is present records an actual change (both
present and numerically different, or a presence change); an entry with both values
absent can occur, when a write of absent targets an absent cell.  (2) No-op suppression
holds on tables whose metrics declare no compute and no aggregate rules (so recompute has
nothing to write): updating with a value numerically equal to the stored one returns an
empty changed-values list and leaves the table unchanged. -/
theorem update_changed_values :
    (∀ (t : MetricsTable) (values : List MetricValue) (t2 : MetricsTable)
        (updated : List UpdatedMetricValue),
        update t values = (t2, .ok updated) →
        ∀ e ∈ updated, (e.oldValue ≠ none ∨ e.value ≠ none) → e.value ≠ e.oldValue) ∧
    (∀ (t : MetricsTable) (metric : String) (period : Period) (v : Decimal)
        (row : List (List Char × Decimal)),
        (∀ mc ∈ t.configuration.metrics, mc.compute = none ∧ mc.aggregate = none) →
        jsGet t.data metric = some row →
        jsGet row (periodKey period) = some v →
        update t [⟨metric, period, some v⟩] = (t, .ok [])) := by
  constructor
  · intro t values t2 updated h e he hne
    obtain ⟨ta, acc, hw, hr⟩ := update_ok_cases h
    have hrec : ∀ e2 ∈ updated, RecordsChange e2 :=
      recompute_records hr (updateWrites_records (by simp) hw)
    rcases (hrec e he : e.oldValue = none ∨ e.value ≠ e.oldValue) with h1 | h1
    · rw [h1]
      rcases hne with h2 | h2
      · exact absurd h1 h2
      · exact h2
    · exact h1
  · intro t metric period v row hrules hrow hval
    have hcond : ¬(jsGet row (periodKey period) = none ∨
        some v ≠ jsGet row (periodKey period)) := by
      rw [hval]
      simp
    have hset : setValue t metric period (some v) [] = .ok (t, []) := by
      rw [setValue_eq period (some v) [] hrow, if_neg hcond]
    have hw : updateWrites t [⟨metric, period, some v⟩] [] = (t, .ok []) :=
      updateWrites_cons_ok hset
    exact update_eq_ok hw (recompute_no_rules hrules)

/-- Witness for the amended C1: applies part (1) to the entry produced by writing 5 into
the empty minimal table, and part (2) to a no-op rewrite of that same value. -/
theorem update_changed_values_witness :
    ((⟨"m", .month 1 2023, some 5, none⟩ : UpdatedMetricValue).value ≠
      (⟨"m", .month 1 2023, some 5, none⟩ : UpdatedMetricValue).oldValue) ∧
    update plainTable5 [⟨"m", .month 1 2023, some 5⟩] = (plainTable5, .ok []) := by
  constructor
  · exact update_changed_values.1 plainTable [⟨"m", .month 1 2023, some 5⟩] plainTable5
      [⟨"m", .month 1 2023, some 5, none⟩] (by with_unfolding_all rfl)
      ⟨"m", .month 1 2023, some 5, none⟩ (by simp) (by simp)
  · refine update_changed_values.2 plainTable5 "m" (.month 1 2023) 5
      [(periodKey (.month 1 2023), 5)] ?_ (by with_unfolding_all rfl)
      (by with_unfolding_all rfl)
    intro mc hmc
    simp only [plainTable5, plainConfiguration, List.mem_singleton] at hmc
    subst hmc
    exact ⟨rfl, rfl⟩

/-- Key presence in `jsSet`. -/
theorem jsGet_jsSet_isSome {κ α : Type} [DecidableEq κ] {l : List (κ × α)} {k n : κ}
    {v : α} : (jsGet (jsSet l k v) n).isSome = true ↔ n = k ∨ (jsGet l n).isSome = true := by
  by_cases hn : n = k
  · subst hn
    simp [jsGet_jsSet_self]
  · simp [jsGet_jsSet_ne hn, hn]

/-- Key presence in a map built by folding `jsSet` over the configured metrics. -/
theorem jsGet_foldl_names {α : Type} (v : α) {metrics : List MetricConfiguration} :
    ∀ {init : List (String × α)} {name : String},
      (jsGet (metrics.foldl (fun m mc => jsSet m mc.name v) init) name).isSome = true ↔
      name ∈ metrics.map (fun mc => mc.name) ∨ (jsGet init name).isSome = true := by
  induction metrics with
  | nil => intro init name; simp
  | cons mc rest ih =>
    intro init name
    simp only [List.foldl_cons, List.map_cons, List.mem_cons]
    rw [ih, jsGet_jsSet_isSome]
    tauto

/-- The registry a `subscribe` call works on: the allocated one, or the freshly
initialized one on first use. -/
def activeSubscriptions (s : SubscribableMetricsTable) : SubscriptionMap :=
  match s.subscriptions with
  | some m => m
  | none => initialSubscriptions s.toTable.configuration

/-- A failing `subscribe` means the registry has no row for the metric, and the error
names it. -/
theorem subscribe_error_cases {s : SubscribableMetricsTable} {metric : String}
    {period : Period} {callback : Nat} {e : MetricsError}
    (h : subscribe s metric period callback = .error e) :
    jsGet (activeSubscriptions s) metric = none ∧ e = .unknownMetric metric := by
  unfold subscribe at h
  simp only [] at h
  unfold activeSubscriptions
  cases hj : jsGet (match s.subscriptions with
      | some m => m
      | none => initialSubscriptions s.toTable.configuration) metric with
  | none =>
    rw [hj] at h
    simp only [Except.error.injEq] at h
    exact ⟨rfl, h.symm⟩
  | some row =>
    rw [hj] at h
    simp only [] at h
    cases hk : jsGet row (periodKey period) with
    | none => rw [hk] at h; simp at h
    | some existing => rw [hk] at h; simp at h

/-- The method `subscribe` succeeds whenever the registry has a row for the metric. -/
theorem subscribe_ok_of_known {s : SubscribableMetricsTable} {metric : String}
    {period : Period} {callback : Nat} {row : List (List Char × List Nat)}
    (hj : jsGet (activeSubscriptions s) metric = some row) :
    ∃ r, subscribe s metric period callback = .ok r := by
  unfold activeSubscriptions at hj
  unfold subscribe
  simp only []
  rw [hj]
  simp only []
  cases hk : jsGet row (periodKey period) with
  | none => exact ⟨_, rfl⟩
  | some existing => exact ⟨_, rfl⟩

/-- Registry well-formedness: when the lazily allocated registry exists, it has a row
exactly for the declared metric names (as `subscribe` maintains). -/
def SubscriptionsWellFormed (s : SubscribableMetricsTable) : Prop :=
  ∀ subs, s.subscriptions = some subs →
    (∀ name ∈ declaredNames s.toTable, (jsGet subs name).isSome = true) ∧
    (∀ e ∈ subs, e.1 ∈ declaredNames s.toTable)

/-- The registry `subscribe` consults has a row exactly for the declared names. -/
theorem activeSubscriptions_isSome {s : SubscribableMetricsTable}
    (hs : SubscriptionsWellFormed s) {metric : String} :
    (jsGet (activeSubscriptions s) metric).isSome = true ↔
      metric ∈ declaredNames s.toTable := by
  unfold activeSubscriptions
  cases hsub : s.subscriptions with
  | none =>
    unfold initialSubscriptions
    rw [jsGet_foldl_names]
    simp [declaredNames, jsGet]
  | some subs =>
    obtain ⟨h1, h2⟩ := hs subs hsub
    constructor
    · intro hsome
      obtain ⟨row, hrow⟩ := Option.isSome_iff_exists.1 hsome
      exact h2 _ (jsGet_mem hrow)
    · intro hmem
      exact h1 _ hmem

/-- In a well-formed table the data map has a row exactly for the declared names. -/
theorem wellFormed_isSome_iff {t : MetricsTable} (hwf : WellFormed t) {metric : String} :
    (jsGet t.data metric).isSome = true ↔ metric ∈ declaredNames t := by
  constructor
  · intro hsome
    obtain ⟨row, hrow⟩ := Option.isSome_iff_exists.1 hsome
    exact hwf.2 _ (jsGet_mem hrow)
  · intro hmem
    exact hwf.1 _ hmem

/-- Claim C7 (confirmed): on well-formed tables, `getValue`, `update` and `subscribe`
raise an error exactly when a referenced metric name is not declared, and the error is
always `UnknownMetric` naming that metric — the only error kind the core raises. -/
theorem unknownMetric_errors :
    (∀ (t : MetricsTable) (metric : String) (period : Period), WellFormed t →
      (((∃ e, getValue t metric period = .error e) ↔ metric ∉ declaredNames t) ∧
       ∀ e, getValue t metric period = .error e → e = .unknownMetric metric)) ∧
    (∀ (t : MetricsTable) (values : List MetricValue), WellFormed t →
      (((∃ e, (update t values).2 = .error e) ↔ ∃ v ∈ values, v.metric ∉ declaredNames t) ∧
       ∀ e, (update t values).2 = .error e →
         ∃ v ∈ values, v.metric ∉ declaredNames t ∧ e = .unknownMetric v.metric)) ∧
    (∀ (s : SubscribableMetricsTable) (metric : String) (period : Period) (c : Nat),
      WellFormed s.toTable → SubscriptionsWellFormed s →
      (((∃ e, subscribe s metric period c = .error e) ↔ metric ∉ declaredNames s.toTable) ∧
       ∀ e, subscribe s metric period c = .error e → e = .unknownMetric metric)) := by
  refine ⟨?_, ?_, ?_⟩
  · intro t metric period hwf
    constructor
    · constructor
      · rintro ⟨e, herr⟩
        cases hj : jsGet t.data metric with
        | none =>
          intro hmem
          have := hwf.1 _ hmem
          rw [hj] at this
          simp at this
        | some row =>
          rw [getValue_eq_ok period hj] at herr
          simp at herr
      · intro hmem
        have hnone : jsGet t.data metric = none := by
          cases hj : jsGet t.data metric with
          | none => rfl
          | some row => exact absurd (hwf.2 _ (jsGet_mem hj)) hmem
        exact ⟨_, getValue_eq_error period hnone⟩
    · intro e herr
      cases hj : jsGet t.data metric with
      | none =>
        rw [getValue_eq_error period hj] at herr
        simp only [Except.error.injEq] at herr
        exact herr.symm
      | some row =>
        rw [getValue_eq_ok period hj] at herr
        simp at herr
  · intro t values hwf
    have hfwd : ∀ e, (update t values).2 = .error e →
        ∃ v ∈ values, v.metric ∉ declaredNames t ∧ e = .unknownMetric v.metric := by
      intro e herr
      cases hw : updateWrites t values [] with
      | mk ta res =>
        cases res with
        | error e2 =>
          obtain ⟨⟨v, hv, hnd, heq⟩, _⟩ := updateWrites_error hwf hw
          rw [update_eq_writes_error hw] at herr
          simp only [Except.error.injEq] at herr
          exact ⟨v, hv, hnd, by rw [← herr]; exact heq⟩
        | ok acc =>
          obtain ⟨hwfa, hconfa⟩ := updateWrites_ok_wf hwf hw
          obtain ⟨⟨t3, acc3⟩, hr, _⟩ := recompute_ok rfl hwfa
            (updateWrites_records (by simp) hw)
          rw [update_eq_ok hw hr] at herr
          simp at herr
    constructor
    · constructor
      · rintro ⟨e, herr⟩
        obtain ⟨v, hv, hnd, _⟩ := hfwd e herr
        exact ⟨v, hv, hnd⟩
      · intro h
        obtain ⟨t2, e, hw⟩ := updateWrites_error_of_unknown hwf h
        exact ⟨e, by rw [update_eq_writes_error hw]⟩
    · exact hfwd
  · intro s metric period c hwf hs
    constructor
    · constructor
      · rintro ⟨e, herr⟩
        intro hmem
        obtain ⟨hnone, _⟩ := subscribe_error_cases herr
        have := (activeSubscriptions_isSome hs).2 hmem
        rw [hnone] at this
        simp at this
      · intro hmem
        have hnone : jsGet (activeSubscriptions s) metric = none := by
          cases hj : jsGet (activeSubscriptions s) metric with
          | none => rfl
          | some row =>
            exact absurd ((activeSubscriptions_isSome hs).1 (by simp [hj])) hmem
        cases hj : jsGet (activeSubscriptions s) metric with
        | some row => rw [hj] at hnone; simp at hnone
        | none =>
          refine ⟨.unknownMetric metric, ?_⟩
          unfold subscribe
          simp only []
          rw [show jsGet (match s.subscriptions with
            | some m => m
            | none => initialSubscriptions s.toTable.configuration) metric = none from hnone]
    · intro e herr
      exact (subscribe_error_cases herr).2

/-- Witness for C7 at concrete inputs: the metric name `zzz` is undeclared, and all
three operations raise exactly `UnknownMetric "zzz"`. -/
theorem unknownMetric_errors_witness :
    getValue plainTable5 "zzz" (.month 1 2023) = .error (.unknownMetric "zzz") ∧
    (update plainTable5 [⟨"zzz", .month 1 2023, some 1⟩]).2 = .error (.unknownMetric "zzz") ∧
    subscribe subTable1 "zzz" (.month 1 2023) 9 = .error (.unknownMetric "zzz") := by
  have hwf : WellFormed plainTable5 := ⟨by decide, by decide⟩
  have hwf0 : WellFormed subTable1.toTable := ⟨by decide, by decide⟩
  have hsubs : SubscriptionsWellFormed subTable1 := by
    intro subs h
    have h2 : some [("m", [(periodKey (.month 1 2023), [7])])] = some subs := h
    injection h2 with h2
    subst h2
    exact ⟨by decide, by decide⟩
  refine ⟨?_, ?_, ?_⟩
  · obtain ⟨e, he⟩ := (unknownMetric_errors.1 plainTable5 "zzz" (.month 1 2023) hwf).1.2
      (by decide)
    have hsh := (unknownMetric_errors.1 plainTable5 "zzz" (.month 1 2023) hwf).2 e he
    rw [← hsh]
    exact he
  · obtain ⟨e, he⟩ := (unknownMetric_errors.2.1 plainTable5
      [⟨"zzz", .month 1 2023, some 1⟩] hwf).1.2 ⟨⟨"zzz", .month 1 2023, some 1⟩, by simp,
        by decide⟩
    obtain ⟨v, hv, _, hsh⟩ := (unknownMetric_errors.2.1 plainTable5
      [⟨"zzz", .month 1 2023, some 1⟩] hwf).2 e he
    rw [List.mem_singleton] at hv
    subst hv
    rw [← hsh]
    exact he
  · obtain ⟨e, he⟩ := (unknownMetric_errors.2.2 subTable1 "zzz" (.month 1 2023) 9
      hwf0 hsubs).1.2 (by decide)
    have hsh := (unknownMetric_errors.2.2 subTable1 "zzz" (.month 1 2023) 9 hwf0 hsubs).2 e he
    rw [← hsh]
    exact he

/-- Claim C8, amended: on well-formed tables `update` raises only `UnknownMetric`; when
it raises, the observable post-state is exactly the state produced by writing the triples
that precede the first unknown-metric triple (`takeWhile` of the known ones), with no
recomputation — so earlier writes persist and the call is *not* atomic; when every triple
names a declared metric the call succeeds and fully resolves. -/
theorem update_atomicity :
    (∀ (t : MetricsTable) (values : List MetricValue) (e : MetricsError),
        WellFormed t → (update t values).2 = .error e →
        (update t values).1 =
          (updateWrites t
            (values.takeWhile (fun v => decide (v.metric ∈ declaredNames t))) []).1) ∧
    (∀ (t : MetricsTable) (values : List MetricValue),
        WellFormed t → (∀ v ∈ values, v.metric ∈ declaredNames t) →
        ∃ updated, (update t values).2 = .ok updated) := by
  constructor
  · intro t values e hwf herr
    cases hw : updateWrites t values [] with
    | mk ta res =>
      cases res with
      | error e2 =>
        obtain ⟨_, hstate⟩ := updateWrites_error hwf hw
        rw [update_eq_writes_error hw]
        exact hstate
      | ok acc =>
        obtain ⟨hwfa, hconfa⟩ := updateWrites_ok_wf hwf hw
        obtain ⟨⟨t3, acc3⟩, hr, _⟩ := recompute_ok rfl hwfa
          (updateWrites_records (by simp) hw)
        rw [update_eq_ok hw hr] at herr
        simp at herr
  · intro t values hwf hall
    obtain ⟨t2, acc2, hw, hwf2, _, _⟩ := @updateWrites_ok values t [] hwf (by simp) hall
    obtain ⟨⟨t3, acc3⟩, hr, _⟩ := recompute_ok rfl hwf2
      (updateWrites_records (by simp) hw)
    exact ⟨acc3, by rw [update_eq_ok hw hr]⟩

/-- Witness for the amended C8 at the concrete partial-failure input: after the failing
call, the state is the one obtained by writing only the leading known triple. -/
theorem update_atomicity_witness :
    (update plainTable [⟨"m", .month 1 2023, some 1⟩, ⟨"nope", .month 1 2023, some 2⟩]).1 =
      (updateWrites plainTable
        ([⟨"m", .month 1 2023, some 1⟩, ⟨"nope", .month 1 2023, some 2⟩].takeWhile
          (fun v => decide (v.metric ∈ declaredNames plainTable))) []).1 ∧
    ∃ updated, (update plainTable [⟨"m", .month 1 2023, some 1⟩]).2 = .ok updated := by
  constructor
  · exact update_atomicity.1 plainTable
      [⟨"m", .month 1 2023, some 1⟩, ⟨"nope", .month 1 2023, some 2⟩]
      (.unknownMetric "nope") ⟨by decide, by decide⟩ (by with_unfolding_all rfl)
  · exact update_atomicity.2 plainTable [⟨"m", .month 1 2023, some 1⟩]
      ⟨by decide, by decide⟩ (by decide)

/-- Membership in the callbacks looked up for a (metric, key) pair exposes the registry
entries it came from. -/
theorem callbacksFor_mem {subs : SubscriptionMap} {m : String} {k : List Char} {c : Nat}
    (h : c ∈ callbacksFor (some subs) m k) :
    ∃ row set, (m, row) ∈ subs ∧ (k, set) ∈ row ∧ c ∈ set := by
  unfold callbacksFor at h
  simp only [] at h
  cases hj : jsGet subs m with
  | none => rw [hj] at h; simp at h
  | some row =>
    rw [hj] at h
    simp only [] at h
    cases hk : jsGet row k with
    | none => rw [hk] at h; simp at h
    | some set =>
      rw [hk] at h
      exact ⟨row, set, jsGet_mem hj, jsGet_mem hk, by simpa using h⟩

/-- Claim C6, amended: a callback registered (once) for exactly one (metric, period key)
pair fires once per entry for that pair in the changed-values list of an `update` — zero
times when the cell produced no entry, but k times when one call produced k entries for
the same cell.  Firing is modelled by the invocation list computed by `subUpdate` before
it returns. -/
theorem subscriber_fire_count (s : SubscribableMetricsTable) (metric : String)
    (period : Period) (c : Nat) (values : List MetricValue)
    (updated : List UpdatedMetricValue) (subs : SubscriptionMap)
    (hsub : s.subscriptions = some subs)
    (hreg : ∀ entry ∈ subs, ∀ kentry ∈ entry.2, c ∈ kentry.2 →
      entry.1 = metric ∧ kentry.1 = periodKey period)
    (hcount : (callbacksFor s.subscriptions metric (periodKey period)).count c = 1)
    (hok : (subUpdate s values).2.1 = .ok updated) :
    (subUpdate s values).2.2.count c =
      updated.countP (fun e => decide (e.metric = metric ∧
        periodKey e.period = periodKey period)) := by
  have honly : ∀ (m : String) (k : List Char), c ∈ callbacksFor (some subs) m k →
      m = metric ∧ k = periodKey period := by
    intro m k h
    obtain ⟨row, set, hrow, hset, hc⟩ := callbacksFor_mem h
    exact hreg (m, row) hrow (k, set) hset hc
  have hcnt : ∀ (l : List UpdatedMetricValue),
      (l.flatMap (fun e => callbacksFor (some subs) e.metric (periodKey e.period))).count c =
      l.countP (fun e => decide (e.metric = metric ∧ periodKey e.period = periodKey period)) := by
    intro l
    induction l with
    | nil => simp
    | cons e rest ih =>
      rw [List.flatMap_cons, List.count_append, List.countP_cons, ih]
      by_cases hp : e.metric = metric ∧ periodKey e.period = periodKey period
      · rw [hp.1, hp.2]
        rw [hsub] at hcount
        rw [hcount]
        simp [hp]
        omega
      · have hni : c ∉ callbacksFor (some subs) e.metric (periodKey e.period) :=
          fun hc => hp (honly _ _ hc)
        rw [List.count_eq_zero.2 hni]
        simp [hp]
  revert hok
  unfold subUpdate
  cases hu : update s.toTable values with
  | mk t2 res =>
    cases res with
    | error e => intro hok; simp at hok
    | ok up =>
      intro hok
      simp only [] at hok ⊢
      simp only [Except.ok.injEq] at hok
      subst hok
      rw [hsub]
      exact hcnt _

/-- Witness for the amended C6 at the double-write input: callback 7, registered once for
`m`/Jan-2023, fires twice because the single update produced two entries for that cell. -/
theorem subscriber_fire_count_witness :
    (subUpdate subTable1 [⟨"m", .month 1 2023, some 1⟩, ⟨"m", .month 1 2023, some 2⟩]).2.2.count 7 =
      ([⟨"m", .month 1 2023, some 1, none⟩, ⟨"m", .month 1 2023, some 2, some 1⟩] :
        List UpdatedMetricValue).countP (fun e => decide (e.metric = "m" ∧
          periodKey e.period = periodKey (.month 1 2023))) :=
  subscriber_fire_count subTable1 "m" (.month 1 2023) 7
    [⟨"m", .month 1 2023, some 1⟩, ⟨"m", .month 1 2023, some 2⟩]
    [⟨"m", .month 1 2023, some 1, none⟩, ⟨"m", .month 1 2023, some 2, some 1⟩]
    [("m", [(periodKey (.month 1 2023), [7])])] rfl (by decide) (by decide)
    (by with_unfolding_all rfl)

/-- The model of `Decimal.sum` agrees with the list sum. -/
theorem decimalSum_eq_sum : ∀ l : List Decimal, decimalSum l = l.sum := by
  intro l
  induction l with
  | nil => rfl
  | cons v rest ih => rw [decimalSum, ih, List.sum_cons]

/-- Claim C9 (confirmed): the four built-in aggregate rules compute the value (or
absence) of the first included period, the value of the last included period, the sum of
the included values with absent read as zero, and the mean of the included values with
absent read as zero — zero on an empty included list. -/
theorem aggregate_builtin_semantics :
    ∀ (t : MetricsTable) (name : String) (included : List Period) (period : Period)
      (old : Option Decimal),
      (∀ p rest, included = p :: rest →
        aggregateValue t name .first included period old = dataGet t.data name p) ∧
      (∀ p, included.getLast? = some p →
        aggregateValue t name .last included period old = dataGet t.data name p) ∧
      (aggregateValue t name .sum included period old =
        some ((included.map (fun p => (dataGet t.data name p).getD 0)).sum)) ∧
      (included ≠ [] →
        aggregateValue t name .average included period old =
          some ((included.map (fun p => (dataGet t.data name p).getD 0)).sum /
            (included.length : Decimal))) ∧
      (aggregateValue t name .average [] period old = some 0) := by
  intro t name included period old
  refine ⟨?_, ?_, ?_, ?_, ?_⟩
  · intro p rest hi
    subst hi
    simp [aggregateValue]
  · intro p hlast
    simp [aggregateValue, hlast]
  · simp [aggregateValue, decimalSum_eq_sum]
  · intro hne
    have hlen : included.length ≠ 0 := by simpa using hne
    simp [aggregateValue, average, decimalSum_eq_sum, hlen]
  · simp [aggregateValue, average]

/-- Witness for C9 at concrete inputs over the minimal table. -/
theorem aggregate_builtin_semantics_witness :
    aggregateValue plainTable5 "m" .first [.month 1 2023, .month 2 2023] (.quarter 1 2023)
      none = dataGet plainTable5.data "m" (.month 1 2023) ∧
    aggregateValue plainTable5 "m" .last [.month 1 2023, .month 2 2023] (.quarter 1 2023)
      none = dataGet plainTable5.data "m" (.month 2 2023) ∧
    aggregateValue plainTable5 "m" .sum [.month 1 2023, .month 2 2023] (.quarter 1 2023)
      none = some (([Period.month 1 2023, .month 2 2023].map
        (fun p => (dataGet plainTable5.data "m" p).getD 0)).sum) ∧
    aggregateValue plainTable5 "m" .average [.month 1 2023, .month 2 2023] (.quarter 1 2023)
      none = some (([Period.month 1 2023, .month 2 2023].map
        (fun p => (dataGet plainTable5.data "m" p).getD 0)).sum /
          (([Period.month 1 2023, .month 2 2023] : List Period).length : Decimal)) ∧
    aggregateValue plainTable5 "m" .average [] (.quarter 1 2023) none = some 0 := by
  obtain ⟨h1, h2, h3, h4, h5⟩ := aggregate_builtin_semantics plainTable5 "m"
    [.month 1 2023, .month 2 2023] (.quarter 1 2023) none
  exact ⟨h1 (.month 1 2023) [.month 2 2023] rfl, h2 (.month 2 2023) (by decide), h3,
    h4 (by decide),
    (aggregate_builtin_semantics plainTable5 "m" [] (.quarter 1 2023) none).2.2.2.2⟩

/-- Claim C10 (confirmed): `update` with no triples is exactly one full recompute pass
over the current state; on a table whose compute rule is not at a fixpoint it returns a
non-empty changed-values list, and on a subscribable table it fires callbacks, although
no external write was supplied. -/
theorem update_empty_runs_recompute :
    (∀ (t t3 : MetricsTable) (acc3 : List UpdatedMetricValue),
        recompute t [] = .ok (t3, acc3) → update t [] = (t3, .ok acc3)) ∧
    (update incTable []).2 = .ok [⟨"m", .month 1 2023, some 6, some 5⟩] ∧
    (subUpdate incSubTable []).2.2 = [3] := by
  refine ⟨fun t t3 acc3 hr => update_eq_ok rfl hr, ?_, ?_⟩
  · with_unfolding_all rfl
  · with_unfolding_all rfl

/-- Witness for C10: the empty update on the increment table is its recompute pass. -/
theorem update_empty_runs_recompute_witness :
    update incTable [] = (⟨incConfiguration, [("m", [(periodKey (.month 1 2023), 6)])]⟩,
      .ok [⟨"m", .month 1 2023, some 6, some 5⟩]) :=
  update_empty_runs_recompute.1 incTable
    ⟨incConfiguration, [("m", [(periodKey (.month 1 2023), 6)])]⟩
    [⟨"m", .month 1 2023, some 6, some 5⟩] (by with_unfolding_all rfl)
